import Mathlib

/-!
Verification of the module-manifest parser (`parser.go`)

The parser of the repository is a token-driven state machine: `Parse` drives
`parseFn` states (`parseModule`, `parseModuleName`, `parseVerb`,
`parsePkgList`, `parsePkgListElem`, `parsePkgMapList`, `parsePkgMapListElem`)
over a pull-based lexer, accumulating into a `Module` value and stopping at
the first error.  The lexer itself is not part of the sources under
verification; the parser is therefore embedded as a function over a finite
list of tokens, with the documented boundary behaviour of the lexer (an
end-of-input token returned idempotently once the stream is exhausted)
built into `nextToken`.

In Go, `unquote(s) = s[1:len(s)-1]` panics when `len(s) < 2`; the embedding
makes that partiality explicit (`unquote` returns `Option`, and a run of the
machine can end in a `panicked` outcome distinct from an ordinary error).
-/

namespace CoinModule

/-- Token kinds, as used by the parser (`tokenModule`, `tokenRequire`, …).
Modelled from the spec: the lexer (which declares these) is not among the
sources; the spec lists the kinds keyword/string/version/arrow/parens/
newline/end-of-input/invalid. -/
inductive TokenKind
  | tokenModule
  | tokenRequire
  | tokenExclude
  | tokenReplace
  | tokenString
  | tokenVersion
  | tokenMapFun
  | tokenLeftParen
  | tokenRightParen
  | tokenNewline
  | tokenEOF
  | tokenInvalid
  deriving DecidableEq, Repr

/-- A lexical token: a kind together with its raw text value.
Modelled from the spec: the token type of the lexer is not among the sources; the
spec gives it a kind, the raw text, and a position (the position only feeds
diagnostics and is omitted). -/
structure Token where
  kind : TokenKind
  val : String
  deriving DecidableEq, Repr

/-- The end-of-input token the exhausted lexer keeps returning.
Modelled from the spec: calling `nextToken()` after end-of-input continues
to return end-of-input rather than failing. -/
def eofToken : Token := ⟨TokenKind.tokenEOF, ""⟩

/-- Package info (`Package` of `parser.go`): import path and version. -/
structure Package where
  Path : String
  Version : String
  deriving DecidableEq, Repr

/-- Package mapping (`PackageMap` of `parser.go`): original and destination package. -/
structure PackageMap where
  From : Package
  To : Package
  deriving DecidableEq, Repr

/-- The mod file (`Module` of `parser.go`): the parse result. -/
structure Module where
  Name : String
  Requires : List Package
  Excludes : List Package
  Replaces : List PackageMap
  deriving DecidableEq, Repr

/-- The empty module `&Module{}` Parse starts from. -/
def emptyModule : Module := ⟨"", [], [], []⟩

/-- Unquoting (`unquote` of `parser.go`): `s[1:len(s)-1]`, i.e. the string with its
first and its last character removed.  The Go slice expression is only
defined when `2 ≤ len s` (for shorter strings the program panics with a
slice-bounds failure), which the embedding records by returning `none`. -/
def unquote (s : String) : Option String :=
  if 2 ≤ s.length then some (String.mk (s.data.drop 1).dropLast) else none

/-- The raw value of a string literal with its first and last characters
(the quote delimiters) removed — the description of unquoting in the spec. -/
def stripDelims (s : String) : String := String.mk (s.data.drop 1).dropLast

/-- The structured parse errors.  Each constructor is one of the
`fmt.Errorf` calls of `parser.go`, carrying the offending token. -/
inductive ParseErr
  | expectModuleDecl (t : Token)
  | expectModuleName (t : Token)
  | expectNewline (t : Token)
  | expectVerbDecl (t : Token)
  | expectPkgDecl (t : Token)
  | expectPkgVersion (t : Token)
  | expectMapFun (t : Token)
  deriving DecidableEq, Repr

/-- Rendering of a token inside an error message.
Modelled from the spec: the `String` method of tokens lives in the lexer,
which is not among the sources; the spec says diagnostics show the token
kind/text, so the raw text is used. -/
def tokStr (t : Token) : String := t.val

/-- A single quote character (for the arrow-expected message). -/
def sq : String := String.mk [Char.ofNat 39]

/-- The error message text of each `fmt.Errorf` format in `parser.go`. -/
def errMsg : ParseErr → String
  | ParseErr.expectModuleDecl t => "expect module declaration, got " ++ tokStr t
  | ParseErr.expectModuleName t => "expect module name, got " ++ tokStr t
  | ParseErr.expectNewline t => "expect newline, got " ++ tokStr t
  | ParseErr.expectVerbDecl t => "expect verb declaration, got " ++ tokStr t
  | ParseErr.expectPkgDecl t => "expect package declaration, got " ++ tokStr t
  | ParseErr.expectPkgVersion t => "expect package version, got " ++ tokStr t
  | ParseErr.expectMapFun t => "expect " ++ sq ++ "=>" ++ sq ++ ", got " ++ tokStr t

/-- The mutable context of the parser (the `parser` struct): the remaining token
stream (standing for the lexer position), the module being built, and the
error field. -/
structure Pctx where
  toks : List Token
  file : Module
  err : Option ParseErr
  deriving DecidableEq, Repr

/-- Token pull (`p.nextToken()`): pull one token; an exhausted stream yields the
end-of-input token and stays exhausted. -/
def nextToken : List Token → Token × List Token
  | [] => (eofToken, [])
  | t :: ts => (t, ts)

/-- Newline skipping (`p.skipNewline()`): pull tokens, ignoring newlines, until the first
non-newline token (end-of-input included), which is returned. -/
def skipNewline : List Token → Token × List Token
  | [] => (eofToken, [])
  | t :: ts => if t.kind = TokenKind.tokenNewline then skipNewline ts else (t, ts)

/-- The destination the `add` closure of `parsePkgList` appends to:
`p.requirePkg` or `p.excludePkg`. -/
inductive Dest
  | requires
  | excludes
  deriving DecidableEq, Repr

/-- Appending (`p.requirePkg` / `p.excludePkg`): append to the selected list. -/
def addPkg : Dest → Module → Package → Module
  | Dest.requires, f, pkg => { f with Requires := f.Requires ++ [pkg] }
  | Dest.excludes, f, pkg => { f with Excludes := f.Excludes ++ [pkg] }

/-- Mapping accumulation (`p.replacePkg`): append a mapping to `Replaces`. -/
def replacePkg (f : Module) (m : PackageMap) : Module :=
  { f with Replaces := f.Replaces ++ [m] }

/-- Result of the helper readers `readPkg` / `readPkgMap`: a Go panic (from
`unquote` on a short string), an error return, or a value. -/
inductive PRes (α : Type)
  | panicked
  | failed (e : ParseErr)
  | ok (a : α)
  deriving DecidableEq, Repr

/-- Package reading (`readPkg` of `parser.go`): given the current token and the stream, read a
package declaration (string path, then version), returning the result and
the remaining stream. -/
def readPkg (t : Token) (toks : List Token) : PRes Package × List Token :=
  if t.kind ≠ TokenKind.tokenString then (PRes.failed (ParseErr.expectPkgDecl t), toks)
  else
    match unquote t.val with
    | none => (PRes.panicked, toks)
    | some path =>
      let (t2, toks2) := nextToken toks
      if t2.kind ≠ TokenKind.tokenVersion then (PRes.failed (ParseErr.expectPkgVersion t2), toks2)
      else (PRes.ok ⟨path, t2.val⟩, toks2)

/-- Mapping reading (`readPkgMap` of `parser.go`): read `pkg => pkg`, returning the mapping
and the remaining stream. -/
def readPkgMap (t : Token) (toks : List Token) : PRes PackageMap × List Token :=
  match readPkg t toks with
  | (PRes.panicked, toks1) => (PRes.panicked, toks1)
  | (PRes.failed e, toks1) => (PRes.failed e, toks1)
  | (PRes.ok old, toks1) =>
    let (t2, toks2) := nextToken toks1
    if t2.kind ≠ TokenKind.tokenMapFun then (PRes.failed (ParseErr.expectMapFun t2), toks2)
    else
      let (t3, toks3) := nextToken toks2
      match readPkg t3 toks3 with
      | (PRes.panicked, toks4) => (PRes.panicked, toks4)
      | (PRes.failed e, toks4) => (PRes.failed e, toks4)
      | (PRes.ok nw, toks4) => (PRes.ok ⟨old, nw⟩, toks4)

/-- The states of the machine: one constructor per `parseFn` value of
`parser.go`.  The Go code builds `parsePkgList`/`parsePkgListElem` by
closing over an `add` function (`p.requirePkg` or `p.excludePkg`); the
closure argument becomes the `Dest` payload. -/
inductive PState
  | parseModule
  | parseModuleName
  | parseVerb
  | parsePkgList (d : Dest)
  | parsePkgListElem (d : Dest)
  | parsePkgMapList
  | parsePkgMapListElem
  deriving DecidableEq, Repr

/-- One transition of the machine: run the `parseFn` body of the current state on
the context.  `none` is a Go panic (reached only through `unquote`); the
`some` case carries the returned next state (`none` meaning the `nil`
`parseFn`, which stops the driver loop) and the updated context.  Errors
follow `p.error`: the error field is set and `nil` is returned. -/
def step : PState → Pctx → Option (Option PState × Pctx)
  | PState.parseModule, p =>
    let (t, toks) := skipNewline p.toks
    match t.kind with
    | TokenKind.tokenModule => some (some PState.parseModuleName, { p with toks := toks })
    | _ => some (none, { p with toks := toks, err := some (ParseErr.expectModuleDecl t) })
  | PState.parseModuleName, p =>
    let (t, toks) := nextToken p.toks
    if t.kind ≠ TokenKind.tokenString then
      some (none, { p with toks := toks, err := some (ParseErr.expectModuleName t) })
    else
      match unquote t.val with
      | none => none
      | some name =>
        let (t2, toks2) := nextToken toks
        let f2 := { p.file with Name := name }
        if t2.kind ≠ TokenKind.tokenNewline then
          some (none, { p with toks := toks2, file := f2, err := some (ParseErr.expectNewline t2) })
        else
          some (some PState.parseVerb, { p with toks := toks2, file := f2 })
  | PState.parseVerb, p =>
    let (t, toks) := nextToken p.toks
    match t.kind with
    | TokenKind.tokenRequire => some (some (PState.parsePkgList Dest.requires), { p with toks := toks })
    | TokenKind.tokenExclude => some (some (PState.parsePkgList Dest.excludes), { p with toks := toks })
    | TokenKind.tokenReplace => some (some PState.parsePkgMapList, { p with toks := toks })
    | TokenKind.tokenNewline => some (some PState.parseVerb, { p with toks := toks })
    | TokenKind.tokenEOF => some (none, { p with toks := toks })
    | _ => some (none, { p with toks := toks, err := some (ParseErr.expectVerbDecl t) })
  | PState.parsePkgList d, p =>
    let (t, toks) := nextToken p.toks
    if t.kind = TokenKind.tokenLeftParen then
      let (t2, toks2) := nextToken toks
      if t2.kind ≠ TokenKind.tokenNewline then
        some (none, { p with toks := toks2, err := some (ParseErr.expectNewline t2) })
      else some (some (PState.parsePkgListElem d), { p with toks := toks2 })
    else
      match readPkg t toks with
      | (PRes.panicked, _) => none
      | (PRes.failed e, toks1) => some (none, { p with toks := toks1, err := some e })
      | (PRes.ok pkg, toks1) =>
        let (t2, toks2) := nextToken toks1
        if t2.kind ≠ TokenKind.tokenNewline then
          some (none, { p with toks := toks2, err := some (ParseErr.expectNewline t2) })
        else
          some (some PState.parseVerb, { p with toks := toks2, file := addPkg d p.file pkg })
  | PState.parsePkgListElem d, p =>
    let (t, toks) := skipNewline p.toks
    if t.kind = TokenKind.tokenRightParen then
      let (t2, toks2) := nextToken toks
      if t2.kind ≠ TokenKind.tokenNewline then
        some (none, { p with toks := toks2, err := some (ParseErr.expectNewline t2) })
      else some (some PState.parseVerb, { p with toks := toks2 })
    else
      match readPkg t toks with
      | (PRes.panicked, _) => none
      | (PRes.failed e, toks1) => some (none, { p with toks := toks1, err := some e })
      | (PRes.ok pkg, toks1) =>
        let (t2, toks2) := nextToken toks1
        if t2.kind ≠ TokenKind.tokenNewline then
          some (none, { p with toks := toks2, err := some (ParseErr.expectNewline t2) })
        else
          some (some (PState.parsePkgListElem d), { p with toks := toks2, file := addPkg d p.file pkg })
  | PState.parsePkgMapList, p =>
    let (t, toks) := nextToken p.toks
    if t.kind = TokenKind.tokenLeftParen then
      let (t2, toks2) := nextToken toks
      if t2.kind ≠ TokenKind.tokenNewline then
        some (none, { p with toks := toks2, err := some (ParseErr.expectNewline t2) })
      else some (some PState.parsePkgMapListElem, { p with toks := toks2 })
    else
      match readPkgMap t toks with
      | (PRes.panicked, _) => none
      | (PRes.failed e, toks1) => some (none, { p with toks := toks1, err := some e })
      | (PRes.ok m, toks1) =>
        let (t2, toks2) := nextToken toks1
        if t2.kind ≠ TokenKind.tokenNewline then
          some (none, { p with toks := toks2, err := some (ParseErr.expectNewline t2) })
        else
          some (some PState.parseVerb, { p with toks := toks2, file := replacePkg p.file m })
  | PState.parsePkgMapListElem, p =>
    let (t, toks) := nextToken p.toks
    if t.kind = TokenKind.tokenRightParen then
      let (t2, toks2) := nextToken toks
      if t2.kind ≠ TokenKind.tokenNewline then
        some (none, { p with toks := toks2, err := some (ParseErr.expectNewline t2) })
      else some (some PState.parseVerb, { p with toks := toks2 })
    else
      match readPkgMap t toks with
      | (PRes.panicked, _) => none
      | (PRes.failed e, toks1) => some (none, { p with toks := toks1, err := some e })
      | (PRes.ok m, toks1) =>
        let (t2, toks2) := nextToken toks1
        if t2.kind ≠ TokenKind.tokenNewline then
          some (none, { p with toks := toks2, err := some (ParseErr.expectNewline t2) })
        else
          some (some PState.parsePkgMapListElem, { p with toks := toks2, file := replacePkg p.file m })

/-- The observable result of a parse: a Go panic, the error return
`(nil, err)`, or the success return `(f, nil)`.  `outOfFuel` marks
exhaustion of the step budget of `run`; it is proved unreachable for the
budget `Parse` uses. -/
inductive Outcome
  | outOfFuel
  | panicked
  | errored (e : ParseErr)
  | parsed (m : Module)
  deriving DecidableEq, Repr

/-- What `Parse` returns once the driver loop has stopped: the error if one
was recorded, the built module otherwise. -/
def finishRun (p : Pctx) : Outcome :=
  match p.err with
  | some e => Outcome.errored e
  | none => Outcome.parsed p.file

/-- The driver loop of `Parse` (`for state := parseModule; state != nil`),
with an explicit step budget standing in for the unbounded iteration of the
loop. -/
def run : Nat → Option PState → Pctx → Outcome
  | _, none, p => finishRun p
  | 0, some _, _ => Outcome.outOfFuel
  | Nat.succ fuel, some s, p =>
    match step s p with
    | none => Outcome.panicked
    | some (next, p2) => run fuel next p2

/-- Entry point (`Parse` of `parser.go`), as a function of the token stream the lexer
would produce: start from the empty module in state `parseModule` and drive
the machine.  The budget `length + 1` is sufficient (proved below): every
continuing step consumes at least one token. -/
def Parse (ts : List Token) : Outcome :=
  run (ts.length + 1) (some PState.parseModule) ⟨ts, emptyModule, none⟩

/-- Shorthand for building tokens in examples. -/
def tok (k : TokenKind) (v : String) : Token := ⟨k, v⟩

/-- A newline token. -/
def nlTok : Token := tok TokenKind.tokenNewline "\n"

/-! ## Invariants threaded through the machine -/

/-- Every package recorded in `Requires`/`Excludes` has a non-empty path. -/
def pathsOk (f : Module) : Prop :=
  (∀ pk ∈ f.Requires, pk.Path ≠ "") ∧ (∀ pk ∈ f.Excludes, pk.Path ≠ "")

/-- States reached only after the module name has been recorded. -/
def nameNeeded : PState → Prop
  | PState.parseModule => False
  | PState.parseModuleName => False
  | _ => True

/-- Tokens whose string literals keep both quote delimiters and at least one
character of content. -/
def goodToks (ts : List Token) : Prop :=
  ∀ t, t ∈ ts → t.kind = TokenKind.tokenString → 3 ≤ t.val.length

/-- Everything a single transition guarantees: the stream only moves
forward; a continuing transition strictly consumes input; a continuing
transition leaves the error field alone; a halt without error can only be
`parseVerb` meeting end-of-input, leaving the module untouched; and the
recorded module keeps non-empty paths and (once past the module line) a
non-empty name, provided the string literals of the stream are well formed. -/
structure StepFacts (s : PState) (p : Pctx) (res : Option PState) (p2 : Pctx) : Prop where
  suffix : p2.toks <:+ p.toks
  prog : res = none ∨ p2.toks.length < p.toks.length
  errPres : res ≠ none → p2.err = p.err
  cleanStop : p.err = none → res = none → p2.err = none → s = PState.parseVerb ∧ p2.file = p.file
  pathsInv : goodToks p.toks → pathsOk p.file → pathsOk p2.file
  nameInv : goodToks p.toks → ∀ s2, res = some s2 → nameNeeded s2 →
    (nameNeeded s → p.file.Name ≠ "") → p2.file.Name ≠ ""

/-- The canonical run from a state: the budget is just enough for the
remaining stream. -/
def runFrom (s : PState) (p : Pctx) : Outcome := run (p.toks.length + 1) (some s) p

/-! ## Syntactically valid files, as a generator

A `FileDesc` describes an arbitrary well-formed manifest: a module name
literal and a list of verb declarations, each inline or parenthesized.
`render` lays it out as the token stream the lexer would produce for it, and
`expectedModule` is the document the spec promises for it. -/

/-- One package line: raw string-literal text (quotes included) and raw
version text. -/
structure PkgLine where
  path : String
  ver : String
  deriving DecidableEq, Repr

/-- One mapping line: the raw literal texts of both sides. -/
structure MapLine where
  fromPath : String
  fromVer : String
  toPath : String
  toVer : String
  deriving DecidableEq, Repr

/-- One verb declaration, inline or block. -/
inductive VerbDecl
  | requireInline (l : PkgLine)
  | requireBlock (ls : List PkgLine)
  | excludeInline (l : PkgLine)
  | excludeBlock (ls : List PkgLine)
  | replaceInline (m : MapLine)
  | replaceBlock (ms : List MapLine)
  deriving DecidableEq, Repr

/-- A whole manifest: module-name literal and verb declarations. -/
structure FileDesc where
  nameLit : String
  decls : List VerbDecl
  deriving DecidableEq, Repr

def strTok (s : String) : Token := ⟨TokenKind.tokenString, s⟩
def verTok (s : String) : Token := ⟨TokenKind.tokenVersion, s⟩
def arrowTok : Token := ⟨TokenKind.tokenMapFun, "=>"⟩
def lparenTok : Token := ⟨TokenKind.tokenLeftParen, "("⟩
def rparenTok : Token := ⟨TokenKind.tokenRightParen, ")"⟩
def moduleTok : Token := ⟨TokenKind.tokenModule, "module"⟩
def requireTok : Token := ⟨TokenKind.tokenRequire, "require"⟩
def excludeTok : Token := ⟨TokenKind.tokenExclude, "exclude"⟩
def replaceTok : Token := ⟨TokenKind.tokenReplace, "replace"⟩

def renderPkgLine (l : PkgLine) : List Token := [strTok l.path, verTok l.ver, nlTok]

def renderMapLine (m : MapLine) : List Token :=
  [strTok m.fromPath, verTok m.fromVer, arrowTok, strTok m.toPath, verTok m.toVer, nlTok]

def renderDecl : VerbDecl → List Token
  | VerbDecl.requireInline l => requireTok :: renderPkgLine l
  | VerbDecl.requireBlock ls =>
    requireTok :: lparenTok :: nlTok :: ((ls.map renderPkgLine).flatten ++ [rparenTok, nlTok])
  | VerbDecl.excludeInline l => excludeTok :: renderPkgLine l
  | VerbDecl.excludeBlock ls =>
    excludeTok :: lparenTok :: nlTok :: ((ls.map renderPkgLine).flatten ++ [rparenTok, nlTok])
  | VerbDecl.replaceInline m => replaceTok :: renderMapLine m
  | VerbDecl.replaceBlock ms =>
    replaceTok :: lparenTok :: nlTok :: ((ms.map renderMapLine).flatten ++ [rparenTok, nlTok])

def renderDecls (ds : List VerbDecl) : List Token := (ds.map renderDecl).flatten

def render (fd : FileDesc) : List Token :=
  moduleTok :: strTok fd.nameLit :: nlTok :: renderDecls fd.decls

/-- The package a package line denotes: unquoted path, verbatim version. -/
def pkgOf (l : PkgLine) : Package := ⟨stripDelims l.path, l.ver⟩

/-- The mapping a mapping line denotes. -/
def mapOf (m : MapLine) : PackageMap :=
  ⟨⟨stripDelims m.fromPath, m.fromVer⟩, ⟨stripDelims m.toPath, m.toVer⟩⟩

def applyDecl (f : Module) : VerbDecl → Module
  | VerbDecl.requireInline l => addPkg Dest.requires f (pkgOf l)
  | VerbDecl.requireBlock ls => ls.foldl (fun g l => addPkg Dest.requires g (pkgOf l)) f
  | VerbDecl.excludeInline l => addPkg Dest.excludes f (pkgOf l)
  | VerbDecl.excludeBlock ls => ls.foldl (fun g l => addPkg Dest.excludes g (pkgOf l)) f
  | VerbDecl.replaceInline m => replacePkg f (mapOf m)
  | VerbDecl.replaceBlock ms => ms.foldl (fun g m => replacePkg g (mapOf m)) f

def applyDecls (f : Module) (ds : List VerbDecl) : Module := ds.foldl applyDecl f

/-- The document the spec promises for a well-formed description. -/
def expectedModule (fd : FileDesc) : Module :=
  applyDecls ⟨stripDelims fd.nameLit, [], [], []⟩ fd.decls

/-- String literals of a line keep their two quote delimiters. -/
def okPkgLine (l : PkgLine) : Prop := 2 ≤ l.path.length

def okMapLine (m : MapLine) : Prop := 2 ≤ m.fromPath.length ∧ 2 ≤ m.toPath.length

def okDecl : VerbDecl → Prop
  | VerbDecl.requireInline l => okPkgLine l
  | VerbDecl.requireBlock ls => ∀ l ∈ ls, okPkgLine l
  | VerbDecl.excludeInline l => okPkgLine l
  | VerbDecl.excludeBlock ls => ∀ l ∈ ls, okPkgLine l
  | VerbDecl.replaceInline m => okMapLine m
  | VerbDecl.replaceBlock ms => ∀ m ∈ ms, okMapLine m

def okFile (fd : FileDesc) : Prop := 2 ≤ fd.nameLit.length ∧ ∀ dcl ∈ fd.decls, okDecl dcl

/-- The require lines a declaration contributes. -/
def reqLines : VerbDecl → List PkgLine
  | VerbDecl.requireInline l => [l]
  | VerbDecl.requireBlock ls => ls
  | _ => []

/-- The exclude lines a declaration contributes. -/
def excLines : VerbDecl → List PkgLine
  | VerbDecl.excludeInline l => [l]
  | VerbDecl.excludeBlock ls => ls
  | _ => []

/-- The mapping lines a declaration contributes. -/
def repLines : VerbDecl → List MapLine
  | VerbDecl.replaceInline m => [m]
  | VerbDecl.replaceBlock ms => ms
  | _ => []

/-! ## Basic lemmas about the token-pulling primitives -/

theorem nextToken_nil : nextToken [] = (eofToken, []) := rfl

theorem nextToken_cons (t : Token) (ts : List Token) : nextToken (t :: ts) = (t, ts) := rfl

theorem nextToken_snd_suffix (ts : List Token) : (nextToken ts).2 <:+ ts := by
  cases ts with
  | nil => exact List.nil_suffix
  | cons t ts => exact List.suffix_cons t ts

theorem nextToken_fst_mem (ts : List Token) :
    (nextToken ts).1 ∈ ts ∨ (nextToken ts).1 = eofToken := by
  cases ts with
  | nil => exact Or.inr rfl
  | cons t ts => exact Or.inl (List.mem_cons_self t ts)

theorem nextToken_lt {ts : List Token} (h : (nextToken ts).1.kind ≠ TokenKind.tokenEOF) :
    (nextToken ts).2.length < ts.length := by
  cases ts with
  | nil => exact absurd rfl h
  | cons t ts => exact Nat.lt_succ_self _

theorem eofToken_kind : eofToken.kind = TokenKind.tokenEOF := rfl

theorem skipNewline_nil : skipNewline [] = (eofToken, []) := rfl

theorem skipNewline_cons_nl {t : Token} (ts : List Token) (h : t.kind = TokenKind.tokenNewline) :
    skipNewline (t :: ts) = skipNewline ts := by
  simp [skipNewline, h]

theorem skipNewline_cons {t : Token} (ts : List Token) (h : t.kind ≠ TokenKind.tokenNewline) :
    skipNewline (t :: ts) = (t, ts) := by
  simp [skipNewline, h]

theorem skipNewline_fst_kind (ts : List Token) :
    (skipNewline ts).1.kind ≠ TokenKind.tokenNewline := by
  induction ts with
  | nil => simp [skipNewline, eofToken]
  | cons t ts ih =>
    by_cases h : t.kind = TokenKind.tokenNewline
    · rw [skipNewline_cons_nl ts h]; exact ih
    · rw [skipNewline_cons ts h]; exact h

theorem skipNewline_snd_suffix (ts : List Token) : (skipNewline ts).2 <:+ ts := by
  induction ts with
  | nil => exact List.nil_suffix
  | cons t ts ih =>
    by_cases h : t.kind = TokenKind.tokenNewline
    · rw [skipNewline_cons_nl ts h]; exact ih.trans (List.suffix_cons t ts)
    · rw [skipNewline_cons ts h]; exact List.suffix_cons t ts

theorem skipNewline_fst_mem (ts : List Token) :
    (skipNewline ts).1 ∈ ts ∨ (skipNewline ts).1 = eofToken := by
  induction ts with
  | nil => exact Or.inr rfl
  | cons t ts ih =>
    by_cases h : t.kind = TokenKind.tokenNewline
    · rw [skipNewline_cons_nl ts h]
      rcases ih with hm | he
      · exact Or.inl (List.mem_cons_of_mem t hm)
      · exact Or.inr he
    · rw [skipNewline_cons ts h]; exact Or.inl (List.mem_cons_self t ts)

theorem skipNewline_lt {ts : List Token} (h : (skipNewline ts).1.kind ≠ TokenKind.tokenEOF) :
    (skipNewline ts).2.length < ts.length := by
  induction ts with
  | nil => exact absurd rfl h
  | cons t ts ih =>
    by_cases hk : t.kind = TokenKind.tokenNewline
    · rw [skipNewline_cons_nl ts hk] at h ⊢
      exact Nat.lt_succ_of_lt (ih h)
    · rw [skipNewline_cons ts hk]; exact Nat.lt_succ_self _

/-- Prepending newline tokens does not change where `skipNewline` stops. -/
theorem skipNewline_append {pre : List Token} (ts : List Token)
    (h : ∀ t ∈ pre, t.kind = TokenKind.tokenNewline) :
    skipNewline (pre ++ ts) = skipNewline ts := by
  induction pre with
  | nil => rfl
  | cons t pre ih =>
    rw [List.cons_append, skipNewline_cons_nl _ (h t (List.mem_cons_self t pre))]
    exact ih fun u hu => h u (List.mem_cons_of_mem t hu)

/-! ## Lemmas about `unquote` -/

theorem unquote_of_le {s : String} (h : 2 ≤ s.length) : unquote s = some (stripDelims s) := by
  simp [unquote, stripDelims, h]

theorem unquote_eq_none {s : String} : unquote s = none ↔ s.length < 2 := by
  simp [unquote]

theorem unquote_isSome (s : String) : (unquote s).isSome ↔ 2 ≤ s.length := by
  by_cases h : 2 ≤ s.length <;> simp [unquote, h]

theorem stripDelims_length (s : String) : (stripDelims s).length = s.length - 2 := by
  show ((s.data.drop 1).dropLast).length = s.data.length - 2
  rw [List.length_dropLast, List.length_drop]
  omega

theorem stripDelims_ne_empty {s : String} (h : 3 ≤ s.length) : stripDelims s ≠ "" := by
  intro he
  have : (stripDelims s).length = 0 := by rw [he]; rfl
  rw [stripDelims_length] at this
  omega

/-! ## Characterization of `readPkg` and `readPkgMap` -/

theorem readPkg_not_string {t : Token} (toks : List Token)
    (h : t.kind ≠ TokenKind.tokenString) :
    readPkg t toks = (PRes.failed (ParseErr.expectPkgDecl t), toks) := by
  simp [readPkg, h]

theorem readPkg_short {t : Token} (toks : List Token) (ht : t.kind = TokenKind.tokenString)
    (h : t.val.length < 2) : readPkg t toks = (PRes.panicked, toks) := by
  have hu : unquote t.val = none := unquote_eq_none.mpr h
  simp [readPkg, ht, hu]

theorem readPkg_eval {t vt : Token} (rest : List Token) (ht : t.kind = TokenKind.tokenString)
    (hl : 2 ≤ t.val.length) (hv : vt.kind = TokenKind.tokenVersion) :
    readPkg t (vt :: rest) = (PRes.ok ⟨stripDelims t.val, vt.val⟩, rest) := by
  simp [readPkg, ht, unquote_of_le hl, nextToken, hv]

theorem readPkg_no_version {t vt : Token} (rest : List Token)
    (ht : t.kind = TokenKind.tokenString) (hl : 2 ≤ t.val.length)
    (hv : vt.kind ≠ TokenKind.tokenVersion) :
    readPkg t (vt :: rest) = (PRes.failed (ParseErr.expectPkgVersion vt), rest) := by
  simp [readPkg, ht, unquote_of_le hl, nextToken, hv]

theorem readPkg_ok {t : Token} {toks toks1 : List Token} {pkg : Package}
    (h : readPkg t toks = (PRes.ok pkg, toks1)) :
    t.kind = TokenKind.tokenString ∧ 2 ≤ t.val.length ∧ pkg.Path = stripDelims t.val ∧
      ∃ vt rest, toks = vt :: rest ∧ vt.kind = TokenKind.tokenVersion ∧
        pkg.Version = vt.val ∧ toks1 = rest := by
  by_cases ht : t.kind = TokenKind.tokenString
  · by_cases hl : 2 ≤ t.val.length
    · cases toks with
      | nil => simp [readPkg, ht, unquote_of_le hl, nextToken, eofToken] at h
      | cons vt rest =>
        by_cases hv : vt.kind = TokenKind.tokenVersion
        · rw [readPkg_eval rest ht hl hv] at h
          simp only [Prod.mk.injEq, PRes.ok.injEq] at h
          obtain ⟨hpkg, hrest⟩ := h
          refine ⟨ht, hl, ?_, vt, rest, rfl, hv, ?_, hrest.symm⟩
          · rw [← hpkg]
          · rw [← hpkg]
        · rw [readPkg_no_version rest ht hl hv] at h
          simp at h
    · rw [readPkg_short toks ht (by omega)] at h
      simp at h
  · rw [readPkg_not_string toks ht] at h
    simp at h

theorem readPkg_panicked {t : Token} {toks toks1 : List Token}
    (h : readPkg t toks = (PRes.panicked, toks1)) :
    t.kind = TokenKind.tokenString ∧ t.val.length < 2 := by
  by_cases ht : t.kind = TokenKind.tokenString
  · by_cases hl : 2 ≤ t.val.length
    · exfalso
      cases toks with
      | nil => simp [readPkg, ht, unquote_of_le hl, nextToken, eofToken] at h
      | cons vt rest =>
        by_cases hv : vt.kind = TokenKind.tokenVersion
        · rw [readPkg_eval rest ht hl hv] at h; simp at h
        · rw [readPkg_no_version rest ht hl hv] at h; simp at h
    · exact ⟨ht, by omega⟩
  · rw [readPkg_not_string toks ht] at h
    simp at h

theorem readPkg_snd_suffix (t : Token) (toks : List Token) : (readPkg t toks).2 <:+ toks := by
  by_cases ht : t.kind = TokenKind.tokenString
  · by_cases hl : 2 ≤ t.val.length
    · cases toks with
      | nil => simp [readPkg, ht, unquote_of_le hl, nextToken, eofToken]
      | cons vt rest =>
        by_cases hv : vt.kind = TokenKind.tokenVersion
        · rw [readPkg_eval rest ht hl hv]; exact List.suffix_cons vt rest
        · rw [readPkg_no_version rest ht hl hv]; exact List.suffix_cons vt rest
    · rw [readPkg_short toks ht (by omega)]
  · rw [readPkg_not_string toks ht]

theorem readPkgMap_eval {t vt a t2 vt2 : Token} (rest : List Token)
    (ht : t.kind = TokenKind.tokenString) (hl : 2 ≤ t.val.length)
    (hv : vt.kind = TokenKind.tokenVersion) (ha : a.kind = TokenKind.tokenMapFun)
    (ht2 : t2.kind = TokenKind.tokenString) (hl2 : 2 ≤ t2.val.length)
    (hv2 : vt2.kind = TokenKind.tokenVersion) :
    readPkgMap t (vt :: a :: t2 :: vt2 :: rest) =
      (PRes.ok ⟨⟨stripDelims t.val, vt.val⟩, ⟨stripDelims t2.val, vt2.val⟩⟩, rest) := by
  simp [readPkgMap, readPkg_eval _ ht hl hv, nextToken, ha, readPkg_eval _ ht2 hl2 hv2]

theorem readPkgMap_no_arrow {t vt a : Token} (rest : List Token)
    (ht : t.kind = TokenKind.tokenString) (hl : 2 ≤ t.val.length)
    (hv : vt.kind = TokenKind.tokenVersion) (ha : a.kind ≠ TokenKind.tokenMapFun) :
    readPkgMap t (vt :: a :: rest) = (PRes.failed (ParseErr.expectMapFun a), rest) := by
  simp [readPkgMap, readPkg_eval _ ht hl hv, nextToken, ha]

theorem readPkgMap_ok {t : Token} {toks toks1 : List Token} {m : PackageMap}
    (h : readPkgMap t toks = (PRes.ok m, toks1)) :
    t.kind = TokenKind.tokenString ∧ 2 ≤ t.val.length ∧ m.From.Path = stripDelims t.val ∧
      ∃ vt a t2 vt2 rest, toks = vt :: a :: t2 :: vt2 :: rest ∧
        vt.kind = TokenKind.tokenVersion ∧ a.kind = TokenKind.tokenMapFun ∧
        t2.kind = TokenKind.tokenString ∧ 2 ≤ t2.val.length ∧
        vt2.kind = TokenKind.tokenVersion ∧ m.From.Version = vt.val ∧
        m.To.Path = stripDelims t2.val ∧ m.To.Version = vt2.val ∧ toks1 = rest := by
  rcases hr : readPkg t toks with ⟨res, toksA⟩
  cases res with
  | panicked => simp [readPkgMap, hr] at h
  | failed e => simp [readPkgMap, hr] at h
  | ok old =>
    obtain ⟨ht, hl, hpath, vt, restA, htoks, hv, hver, hA⟩ := readPkg_ok hr
    subst hA
    cases toksA with
    | nil => simp [readPkgMap, hr, nextToken, eofToken] at h
    | cons a restB =>
      by_cases ha : a.kind = TokenKind.tokenMapFun
      · cases restB with
        | nil => simp [readPkgMap, hr, nextToken, ha, readPkg_not_string, eofToken] at h
        | cons t3 restC =>
          rcases hr2 : readPkg t3 restC with ⟨res2, toksC⟩
          cases res2 with
          | panicked => simp [readPkgMap, hr, nextToken, ha, hr2] at h
          | failed e => simp [readPkgMap, hr, nextToken, ha, hr2] at h
          | ok nw =>
            obtain ⟨ht2, hl2, hpath2, vt2, restD, htoks2, hv2, hver2, hC⟩ := readPkg_ok hr2
            simp only [readPkgMap, hr, nextToken, ha, hr2] at h
            simp only [ne_eq, not_true_eq_false, if_false, ite_false, if_neg] at h
            simp only [Prod.mk.injEq, PRes.ok.injEq] at h
            obtain ⟨hm, hrest⟩ := h
            refine ⟨ht, hl, ?_, vt, a, t3, vt2, restD, ?_, hv, ha, ht2, hl2, hv2,
              ?_, ?_, ?_, ?_⟩
            · rw [← hm]; exact hpath
            · rw [htoks, htoks2]
            · rw [← hm]; exact hver
            · rw [← hm]; exact hpath2
            · rw [← hm]; exact hver2
            · rw [← hrest]; exact hC
      · simp [readPkgMap, hr, nextToken, ha] at h

theorem readPkgMap_panicked {t : Token} {toks toks1 : List Token}
    (h : readPkgMap t toks = (PRes.panicked, toks1)) :
    (t.kind = TokenKind.tokenString ∧ t.val.length < 2) ∨
      ∃ u ∈ toks, u.kind = TokenKind.tokenString ∧ u.val.length < 2 := by
  rcases hr : readPkg t toks with ⟨res, toksA⟩
  cases res with
  | panicked =>
    exact Or.inl (readPkg_panicked hr)
  | failed e => simp [readPkgMap, hr] at h
  | ok old =>
    obtain ⟨ht, hl, hpath, vt, restA, htoks, hv, hver, hA⟩ := readPkg_ok hr
    subst hA
    cases toksA with
    | nil => simp [readPkgMap, hr, nextToken, eofToken] at h
    | cons a restB =>
      by_cases ha : a.kind = TokenKind.tokenMapFun
      · cases restB with
        | nil => simp [readPkgMap, hr, nextToken, ha, readPkg_not_string, eofToken] at h
        | cons t3 restC =>
          rcases hr2 : readPkg t3 restC with ⟨res2, toksC⟩
          cases res2 with
          | panicked =>
            refine Or.inr ⟨t3, ?_, readPkg_panicked hr2⟩
            rw [htoks]
            exact List.mem_cons_of_mem vt (List.mem_cons_of_mem a (List.mem_cons_self t3 restC))
          | failed e => simp [readPkgMap, hr, nextToken, ha, hr2] at h
          | ok nw => simp [readPkgMap, hr, nextToken, ha, hr2] at h
      · simp [readPkgMap, hr, nextToken, ha] at h

theorem readPkgMap_snd_suffix (t : Token) (toks : List Token) :
    (readPkgMap t toks).2 <:+ toks := by
  rcases hr : readPkg t toks with ⟨res, toksA⟩
  have hsufA : toksA <:+ toks := by
    have := readPkg_snd_suffix t toks
    rwa [hr] at this
  cases res with
  | panicked => simp [readPkgMap, hr]; exact hsufA
  | failed e => simp [readPkgMap, hr]; exact hsufA
  | ok old =>
    rcases hr2 : readPkg (nextToken (nextToken toksA).2).1 (nextToken (nextToken toksA).2).2
      with ⟨res2, toksC⟩
    have hsufB : (nextToken toksA).2 <:+ toks := (nextToken_snd_suffix toksA).trans hsufA
    have hsufC : (nextToken (nextToken toksA).2).2 <:+ toks :=
      (nextToken_snd_suffix _).trans hsufB
    have hsufD : toksC <:+ toks := by
      have := readPkg_snd_suffix (nextToken (nextToken toksA).2).1 (nextToken (nextToken toksA).2).2
      rw [hr2] at this
      exact this.trans hsufC
    by_cases ha : (nextToken toksA).1.kind = TokenKind.tokenMapFun
    · cases res2 with
      | panicked => simp [readPkgMap, hr, ha, hr2]; exact hsufD
      | failed e => simp [readPkgMap, hr, ha, hr2]; exact hsufD
      | ok nw => simp [readPkgMap, hr, ha, hr2]; exact hsufD
    · simp [readPkgMap, hr, ha]
      exact hsufB

theorem nameNeeded_parseVerb : nameNeeded PState.parseVerb := trivial

theorem goodToks_mono {ts us : List Token} (h : us <:+ ts) (hg : goodToks ts) : goodToks us :=
  fun t ht hk => hg t (h.subset ht) hk

theorem addPkg_Name (d : Dest) (f : Module) (pkg : Package) : (addPkg d f pkg).Name = f.Name := by
  cases d <;> rfl

theorem addPkg_pathsOk {f : Module} {pkg : Package} (d : Dest) (hf : pathsOk f)
    (hp : pkg.Path ≠ "") : pathsOk (addPkg d f pkg) := by
  cases d with
  | requires =>
    refine ⟨fun pk hpk => ?_, hf.2⟩
    rcases List.mem_append.mp hpk with hm | hm
    · exact hf.1 pk hm
    · rw [List.mem_singleton.mp hm]; exact hp
  | excludes =>
    refine ⟨hf.1, fun pk hpk => ?_⟩
    rcases List.mem_append.mp hpk with hm | hm
    · exact hf.2 pk hm
    · rw [List.mem_singleton.mp hm]; exact hp

theorem replacePkg_Name (f : Module) (m : PackageMap) : (replacePkg f m).Name = f.Name := rfl

theorem replacePkg_pathsOk {f : Module} (m : PackageMap) (hf : pathsOk f) :
    pathsOk (replacePkg f m) := hf

theorem nextToken_fst_mem_of_ne {ts : List Token}
    (h : (nextToken ts).1.kind ≠ TokenKind.tokenEOF) : (nextToken ts).1 ∈ ts := by
  rcases nextToken_fst_mem ts with hm | he
  · exact hm
  · rw [he] at h; exact absurd rfl h

theorem skipNewline_fst_mem_of_ne {ts : List Token}
    (h : (skipNewline ts).1.kind ≠ TokenKind.tokenEOF) : (skipNewline ts).1 ∈ ts := by
  rcases skipNewline_fst_mem ts with hm | he
  · exact hm
  · rw [he] at h; exact absurd rfl h

theorem stepFacts_err {p : Pctx} {T : List Token} (s : PState) (e : ParseErr)
    (hsuf : T <:+ p.toks) : StepFacts s p none ⟨T, p.file, some e⟩ := by
  refine ⟨hsuf, Or.inl rfl, ?_, ?_, ?_, ?_⟩
  · intro h; exact absurd rfl h
  · intro _ _ h; exact absurd h (by simp)
  · intro _ hp; exact hp
  · intro _ s2 h; exact absurd h (by simp)

theorem stepFacts_errName {p : Pctx} {T : List Token} {n : String} (e : ParseErr)
    (hsuf : T <:+ p.toks) :
    StepFacts PState.parseModuleName p none ⟨T, { p.file with Name := n }, some e⟩ := by
  refine ⟨hsuf, Or.inl rfl, ?_, ?_, ?_, ?_⟩
  · intro h; exact absurd rfl h
  · intro _ _ h; exact absurd h (by simp)
  · intro _ hp; exact hp
  · intro _ s2 h; exact absurd h (by simp)

theorem stepFacts_done {p : Pctx} {T : List Token} (hsuf : T <:+ p.toks) :
    StepFacts PState.parseVerb p none ⟨T, p.file, p.err⟩ := by
  refine ⟨hsuf, Or.inl rfl, ?_, ?_, ?_, ?_⟩
  · intro h; exact absurd rfl h
  · intro _ _ _; exact ⟨rfl, rfl⟩
  · intro _ hp; exact hp
  · intro _ s2 h; exact absurd h (by simp)

theorem stepFacts_cont {p : Pctx} {T : List Token} {s s2 : PState}
    (hsuf : T <:+ p.toks) (hlt : T.length < p.toks.length)
    (hname : nameNeeded s2 → nameNeeded s) :
    StepFacts s p (some s2) ⟨T, p.file, p.err⟩ := by
  refine ⟨hsuf, Or.inr hlt, fun _ => rfl, ?_, fun _ hp => hp, ?_⟩
  · intro _ h; exact absurd h (by simp)
  · intro _ s3 hs3 hn hprev
    have hs2 : s2 = s3 := by injection hs3
    exact hprev (hname (hs2 ▸ hn))

theorem stepFacts_name {p : Pctx} {T : List Token} {t : Token}
    (hsuf : T <:+ p.toks) (hlt : T.length < p.toks.length) (hmem : t ∈ p.toks)
    (hstr : t.kind = TokenKind.tokenString) :
    StepFacts PState.parseModuleName p (some PState.parseVerb)
      ⟨T, { p.file with Name := stripDelims t.val }, p.err⟩ := by
  refine ⟨hsuf, Or.inr hlt, fun _ => rfl, ?_, ?_, ?_⟩
  · intro _ h; exact absurd h (by simp)
  · intro _ hp; exact hp
  · intro hg s3 _ _ _
    exact stripDelims_ne_empty (hg t hmem hstr)

theorem stepFacts_add {p : Pctx} {T : List Token} {t : Token} {d : Dest} {pkg : Package}
    {s s2 : PState} (hsuf : T <:+ p.toks) (hlt : T.length < p.toks.length)
    (hmem : t ∈ p.toks) (hstr : t.kind = TokenKind.tokenString)
    (hpath : pkg.Path = stripDelims t.val) (hs : nameNeeded s) :
    StepFacts s p (some s2) ⟨T, addPkg d p.file pkg, p.err⟩ := by
  refine ⟨hsuf, Or.inr hlt, fun _ => rfl, ?_, ?_, ?_⟩
  · intro _ h; exact absurd h (by simp)
  · intro hg hp
    exact addPkg_pathsOk d hp (by rw [hpath]; exact stripDelims_ne_empty (hg t hmem hstr))
  · intro _ s3 _ _ hprev
    show (addPkg d p.file pkg).Name ≠ ""
    rw [addPkg_Name]
    exact hprev hs

theorem stepFacts_rep {p : Pctx} {T : List Token} {m : PackageMap} {s s2 : PState}
    (hsuf : T <:+ p.toks) (hlt : T.length < p.toks.length) (hs : nameNeeded s) :
    StepFacts s p (some s2) ⟨T, replacePkg p.file m, p.err⟩ := by
  refine ⟨hsuf, Or.inr hlt, fun _ => rfl, ?_, ?_, ?_⟩
  · intro _ h; exact absurd h (by simp)
  · intro _ hp; exact replacePkg_pathsOk m hp
  · intro _ s3 _ _ hprev
    show (replacePkg p.file m).Name ≠ ""
    rw [replacePkg_Name]
    exact hprev hs

/-- The master analysis of one transition: a panicking step was fed a string
token that lost a quote delimiter, and every completed step satisfies
`StepFacts`. -/
theorem step_master (s : PState) (p : Pctx) :
    (step s p = none → ∃ u ∈ p.toks, u.kind = TokenKind.tokenString ∧ u.val.length < 2) ∧
    (∀ res p2, step s p = some (res, p2) → StepFacts s p res p2) := by
  obtain ⟨ptoks, pfile, perr⟩ := p
  cases s
  case parseModule =>
    rcases hsn : skipNewline ptoks with ⟨t, toks⟩
    have hsuf : toks <:+ ptoks := by
      have h0 := skipNewline_snd_suffix ptoks
      rwa [hsn] at h0
    have hlt : t.kind ≠ TokenKind.tokenEOF → toks.length < ptoks.length := by
      intro hne
      have h0 := @skipNewline_lt ptoks (by rw [hsn]; exact hne)
      rwa [hsn] at h0
    constructor
    · intro h
      simp only [step, hsn] at h
      cases hk : t.kind <;> rw [hk] at h <;> simp at h
    · intro res p2 h
      simp only [step, hsn] at h
      cases hk : t.kind
      case tokenModule =>
        rw [hk] at h
        simp only [Option.some.injEq, Prod.mk.injEq] at h
        obtain ⟨rfl, rfl⟩ := h
        exact stepFacts_cont hsuf (hlt (by rw [hk]; simp)) (fun hn => hn.elim)
      all_goals
        rw [hk] at h
      all_goals
        simp only [Option.some.injEq, Prod.mk.injEq] at h
      all_goals
        obtain ⟨rfl, rfl⟩ := h
      all_goals
        exact stepFacts_err _ _ hsuf
  case parseModuleName =>
    cases ptoks with
    | nil =>
      constructor
      · intro h
        simp [step, nextToken, eofToken] at h
      · intro res p2 h
        simp only [step, nextToken] at h
        simp only [eofToken] at h
        simp at h
        obtain ⟨rfl, rfl⟩ := h
        exact stepFacts_err _ _ List.nil_suffix
    | cons t rest =>
      by_cases hstr : t.kind = TokenKind.tokenString
      · by_cases hlen : 2 ≤ t.val.length
        · cases rest with
          | nil =>
            constructor
            · intro h
              simp [step, nextToken, hstr, unquote_of_le hlen, eofToken] at h
            · intro res p2 h
              simp [step, nextToken, hstr, unquote_of_le hlen, eofToken] at h
              obtain ⟨rfl, rfl⟩ := h
              exact stepFacts_errName _ (List.nil_suffix)
          | cons t2 rest2 =>
            by_cases hnl : t2.kind = TokenKind.tokenNewline
            · constructor
              · intro h
                simp [step, nextToken, hstr, unquote_of_le hlen, hnl] at h
              · intro res p2 h
                simp [step, nextToken, hstr, unquote_of_le hlen, hnl] at h
                obtain ⟨rfl, rfl⟩ := h
                exact stepFacts_name
                  ((List.suffix_cons t2 rest2).trans (List.suffix_cons t (t2 :: rest2)))
                  (by simp; omega) (List.mem_cons_self _ _) hstr
            · constructor
              · intro h
                simp [step, nextToken, hstr, unquote_of_le hlen, hnl] at h
              · intro res p2 h
                simp [step, nextToken, hstr, unquote_of_le hlen, hnl] at h
                obtain ⟨rfl, rfl⟩ := h
                exact stepFacts_errName _
                  ((List.suffix_cons t2 rest2).trans (List.suffix_cons t (t2 :: rest2)))
        · have hun : unquote t.val = none := unquote_eq_none.mpr (by omega)
          constructor
          · intro _
            exact ⟨t, List.mem_cons_self t rest, hstr, by omega⟩
          · intro res p2 h
            simp [step, nextToken, hstr, hun] at h
      · constructor
        · intro h
          simp [step, nextToken, hstr] at h
        · intro res p2 h
          simp [step, nextToken, hstr] at h
          obtain ⟨rfl, rfl⟩ := h
          exact stepFacts_err _ _ (List.suffix_cons t rest)
  case parseVerb =>
    cases ptoks with
    | nil =>
      constructor
      · intro h
        simp [step, nextToken, eofToken] at h
      · intro res p2 h
        simp [step, nextToken, eofToken] at h
        obtain ⟨rfl, rfl⟩ := h
        exact stepFacts_done List.nil_suffix
    | cons t rest =>
      have hsuf : rest <:+ t :: rest := List.suffix_cons t rest
      have hlt : rest.length < (t :: rest).length := Nat.lt_succ_self _
      constructor
      · intro h
        simp only [step, nextToken] at h
        cases hk : t.kind <;> rw [hk] at h <;> simp at h
      · intro res p2 h
        simp only [step, nextToken] at h
        cases hk : t.kind
        case tokenRequire =>
          rw [hk] at h
          simp only [Option.some.injEq, Prod.mk.injEq] at h
          obtain ⟨rfl, rfl⟩ := h
          exact stepFacts_cont hsuf hlt (fun _ => trivial)
        case tokenExclude =>
          rw [hk] at h
          simp only [Option.some.injEq, Prod.mk.injEq] at h
          obtain ⟨rfl, rfl⟩ := h
          exact stepFacts_cont hsuf hlt (fun _ => trivial)
        case tokenReplace =>
          rw [hk] at h
          simp only [Option.some.injEq, Prod.mk.injEq] at h
          obtain ⟨rfl, rfl⟩ := h
          exact stepFacts_cont hsuf hlt (fun _ => trivial)
        case tokenNewline =>
          rw [hk] at h
          simp only [Option.some.injEq, Prod.mk.injEq] at h
          obtain ⟨rfl, rfl⟩ := h
          exact stepFacts_cont hsuf hlt (fun _ => trivial)
        case tokenEOF =>
          rw [hk] at h
          simp only [Option.some.injEq, Prod.mk.injEq] at h
          obtain ⟨rfl, rfl⟩ := h
          exact stepFacts_done hsuf
        all_goals
          rw [hk] at h
        all_goals
          simp only [Option.some.injEq, Prod.mk.injEq] at h
        all_goals
          obtain ⟨rfl, rfl⟩ := h
        all_goals
          exact stepFacts_err _ _ hsuf
  case parsePkgList d =>
    cases ptoks with
    | nil =>
      constructor
      · intro h
        simp [step, nextToken, eofToken, readPkg] at h
      · intro res p2 h
        simp [step, nextToken, eofToken, readPkg] at h
        obtain ⟨rfl, rfl⟩ := h
        exact stepFacts_err _ _ List.nil_suffix
    | cons t rest =>
      by_cases hlp : t.kind = TokenKind.tokenLeftParen
      · cases rest with
        | nil =>
          constructor
          · intro h
            simp [step, nextToken, hlp, eofToken] at h
          · intro res p2 h
            simp [step, nextToken, hlp, eofToken] at h
            obtain ⟨rfl, rfl⟩ := h
            exact stepFacts_err _ _ List.nil_suffix
        | cons t2 rest2 =>
          by_cases hnl : t2.kind = TokenKind.tokenNewline
          · constructor
            · intro h
              simp [step, nextToken, hlp, hnl] at h
            · intro res p2 h
              simp [step, nextToken, hlp, hnl] at h
              obtain ⟨rfl, rfl⟩ := h
              exact stepFacts_cont
                ((List.suffix_cons t2 rest2).trans (List.suffix_cons t (t2 :: rest2)))
                (by simp; omega) (fun _ => trivial)
          · constructor
            · intro h
              simp [step, nextToken, hlp, hnl] at h
            · intro res p2 h
              simp [step, nextToken, hlp, hnl] at h
              obtain ⟨rfl, rfl⟩ := h
              exact stepFacts_err _ _
                ((List.suffix_cons t2 rest2).trans (List.suffix_cons t (t2 :: rest2)))
      · rcases hr : readPkg t rest with ⟨r1, toks1⟩
        have hsuf1 : toks1 <:+ t :: rest := by
          have h0 := readPkg_snd_suffix t rest
          rw [hr] at h0
          exact h0.trans (List.suffix_cons t rest)
        cases r1 with
        | panicked =>
          constructor
          · intro _
            obtain ⟨h1, h2⟩ := readPkg_panicked hr
            exact ⟨t, List.mem_cons_self t rest, h1, h2⟩
          · intro res p2 h
            simp [step, nextToken, hlp, hr] at h
        | failed e =>
          constructor
          · intro h
            simp [step, nextToken, hlp, hr] at h
          · intro res p2 h
            simp [step, nextToken, hlp, hr] at h
            obtain ⟨rfl, rfl⟩ := h
            exact stepFacts_err _ _ hsuf1
        | ok pkg =>
          obtain ⟨hstr, hlen, hpath, vt, rest1, hrest, hv, hver, htoks1⟩ := readPkg_ok hr
          subst htoks1
          subst hrest
          cases toks1 with
          | nil =>
            constructor
            · intro h
              simp [step, nextToken, hlp, hr, eofToken] at h
            · intro res p2 h
              simp [step, nextToken, hlp, hr, eofToken] at h
              obtain ⟨rfl, rfl⟩ := h
              exact stepFacts_err _ _ List.nil_suffix
          | cons u rest2 =>
            by_cases hnl : u.kind = TokenKind.tokenNewline
            · constructor
              · intro h
                simp [step, nextToken, hlp, hr, hnl] at h
              · intro res p2 h
                simp [step, nextToken, hlp, hr, hnl] at h
                obtain ⟨rfl, rfl⟩ := h
                exact stepFacts_add
                  ((List.suffix_cons u rest2).trans ((List.suffix_cons vt _).trans
                    (List.suffix_cons t _)))
                  (by simp; omega) (List.mem_cons_self _ _) hstr hpath trivial
            · constructor
              · intro h
                simp [step, nextToken, hlp, hr, hnl] at h
              · intro res p2 h
                simp [step, nextToken, hlp, hr, hnl] at h
                obtain ⟨rfl, rfl⟩ := h
                exact stepFacts_err _ _
                  ((List.suffix_cons u rest2).trans ((List.suffix_cons vt _).trans
                    (List.suffix_cons t _)))
  case parsePkgListElem d =>
    rcases hsn : skipNewline ptoks with ⟨t, toks⟩
    have hsuf0 : toks <:+ ptoks := by
      have h0 := skipNewline_snd_suffix ptoks
      rwa [hsn] at h0
    have hmem0 : t.kind ≠ TokenKind.tokenEOF → t ∈ ptoks := by
      intro hne
      have h0 := @skipNewline_fst_mem_of_ne ptoks (by rw [hsn]; exact hne)
      rwa [hsn] at h0
    by_cases hrp : t.kind = TokenKind.tokenRightParen
    · cases toks with
      | nil =>
        constructor
        · intro h
          simp [step, hsn, hrp, nextToken, eofToken] at h
        · intro res p2 h
          simp [step, hsn, hrp, nextToken, eofToken] at h
          obtain ⟨rfl, rfl⟩ := h
          exact stepFacts_err _ _ List.nil_suffix
      | cons t2 rest2 =>
        have hsuf2 : rest2 <:+ ptoks := ((List.suffix_cons t2 rest2).trans hsuf0)
        have hlt2 : rest2.length < ptoks.length :=
          Nat.lt_of_lt_of_le (Nat.lt_succ_self _) hsuf0.length_le
        by_cases hnl : t2.kind = TokenKind.tokenNewline
        · constructor
          · intro h
            simp [step, hsn, hrp, nextToken, hnl] at h
          · intro res p2 h
            simp [step, hsn, hrp, nextToken, hnl] at h
            obtain ⟨rfl, rfl⟩ := h
            exact stepFacts_cont hsuf2 hlt2 (fun _ => trivial)
        · constructor
          · intro h
            simp [step, hsn, hrp, nextToken, hnl] at h
          · intro res p2 h
            simp [step, hsn, hrp, nextToken, hnl] at h
            obtain ⟨rfl, rfl⟩ := h
            exact stepFacts_err _ _ hsuf2
    · rcases hr : readPkg t toks with ⟨r1, toks1⟩
      have hsuf1 : toks1 <:+ ptoks := by
        have h0 := readPkg_snd_suffix t toks
        rw [hr] at h0
        exact h0.trans hsuf0
      cases r1 with
      | panicked =>
        constructor
        · intro _
          obtain ⟨h1, h2⟩ := readPkg_panicked hr
          exact ⟨t, hmem0 (by rw [h1]; simp), h1, h2⟩
        · intro res p2 h
          simp [step, hsn, hrp, hr] at h
      | failed e =>
        constructor
        · intro h
          simp [step, hsn, hrp, hr] at h
        · intro res p2 h
          simp [step, hsn, hrp, hr] at h
          obtain ⟨rfl, rfl⟩ := h
          exact stepFacts_err _ _ hsuf1
      | ok pkg =>
        obtain ⟨hstr, hlen, hpath, vt, rest1, hrest, hv, hver, htoks1⟩ := readPkg_ok hr
        subst htoks1
        subst hrest
        cases toks1 with
        | nil =>
          constructor
          · intro h
            simp [step, hsn, hrp, hr, nextToken, eofToken] at h
          · intro res p2 h
            simp [step, hsn, hrp, hr, nextToken, eofToken] at h
            obtain ⟨rfl, rfl⟩ := h
            exact stepFacts_err _ _ List.nil_suffix
        | cons u rest2 =>
          have hsufu : rest2 <:+ ptoks :=
            ((List.suffix_cons u rest2).trans ((List.suffix_cons vt _).trans hsuf0))
          have hltu : rest2.length < ptoks.length := by
            have h1 : (vt :: u :: rest2).length ≤ ptoks.length := hsuf0.length_le
            simp at h1
            omega
          by_cases hnl : u.kind = TokenKind.tokenNewline
          · constructor
            · intro h
              simp [step, hsn, hrp, hr, nextToken, hnl] at h
            · intro res p2 h
              simp [step, hsn, hrp, hr, nextToken, hnl] at h
              obtain ⟨rfl, rfl⟩ := h
              exact stepFacts_add hsufu hltu (hmem0 (by rw [hstr]; simp)) hstr hpath trivial
          · constructor
            · intro h
              simp [step, hsn, hrp, hr, nextToken, hnl] at h
            · intro res p2 h
              simp [step, hsn, hrp, hr, nextToken, hnl] at h
              obtain ⟨rfl, rfl⟩ := h
              exact stepFacts_err _ _ hsufu
  case parsePkgMapList =>
    cases ptoks with
    | nil =>
      constructor
      · intro h
        simp [step, nextToken, eofToken, readPkgMap, readPkg] at h
      · intro res p2 h
        simp [step, nextToken, eofToken, readPkgMap, readPkg] at h
        obtain ⟨rfl, rfl⟩ := h
        exact stepFacts_err _ _ List.nil_suffix
    | cons t rest =>
      by_cases hlp : t.kind = TokenKind.tokenLeftParen
      · cases rest with
        | nil =>
          constructor
          · intro h
            simp [step, nextToken, hlp, eofToken] at h
          · intro res p2 h
            simp [step, nextToken, hlp, eofToken] at h
            obtain ⟨rfl, rfl⟩ := h
            exact stepFacts_err _ _ List.nil_suffix
        | cons t2 rest2 =>
          by_cases hnl : t2.kind = TokenKind.tokenNewline
          · constructor
            · intro h
              simp [step, nextToken, hlp, hnl] at h
            · intro res p2 h
              simp [step, nextToken, hlp, hnl] at h
              obtain ⟨rfl, rfl⟩ := h
              exact stepFacts_cont
                ((List.suffix_cons t2 rest2).trans (List.suffix_cons t (t2 :: rest2)))
                (by simp; omega) (fun _ => trivial)
          · constructor
            · intro h
              simp [step, nextToken, hlp, hnl] at h
            · intro res p2 h
              simp [step, nextToken, hlp, hnl] at h
              obtain ⟨rfl, rfl⟩ := h
              exact stepFacts_err _ _
                ((List.suffix_cons t2 rest2).trans (List.suffix_cons t (t2 :: rest2)))
      · rcases hr : readPkgMap t rest with ⟨r1, toks1⟩
        have hsuf1 : toks1 <:+ t :: rest := by
          have h0 := readPkgMap_snd_suffix t rest
          rw [hr] at h0
          exact h0.trans (List.suffix_cons t rest)
        cases r1 with
        | panicked =>
          constructor
          · intro _
            rcases readPkgMap_panicked hr with ⟨h1, h2⟩ | ⟨u, hu, h1, h2⟩
            · exact ⟨t, List.mem_cons_self t rest, h1, h2⟩
            · exact ⟨u, List.mem_cons_of_mem t hu, h1, h2⟩
          · intro res p2 h
            simp [step, nextToken, hlp, hr] at h
        | failed e =>
          constructor
          · intro h
            simp [step, nextToken, hlp, hr] at h
          · intro res p2 h
            simp [step, nextToken, hlp, hr] at h
            obtain ⟨rfl, rfl⟩ := h
            exact stepFacts_err _ _ hsuf1
        | ok m =>
          obtain ⟨hstr, hlen, hpath, vt, a, u2, vt2, rest1, hrest, hv, ha, hstr2, hlen2,
            hv2, hver, hpath2, hver2, htoks1⟩ := readPkgMap_ok hr
          subst htoks1
          subst hrest
          cases toks1 with
          | nil =>
            constructor
            · intro h
              simp [step, nextToken, hlp, hr, eofToken] at h
            · intro res p2 h
              simp [step, nextToken, hlp, hr, eofToken] at h
              obtain ⟨rfl, rfl⟩ := h
              exact stepFacts_err _ _ List.nil_suffix
          | cons u rest2 =>
            by_cases hnl : u.kind = TokenKind.tokenNewline
            · constructor
              · intro h
                simp [step, nextToken, hlp, hr, hnl] at h
              · intro res p2 h
                simp [step, nextToken, hlp, hr, hnl] at h
                obtain ⟨rfl, rfl⟩ := h
                exact stepFacts_rep (List.suffix_cons u rest2 |>.trans
                  ((List.suffix_cons vt2 _).trans ((List.suffix_cons u2 _).trans
                    ((List.suffix_cons a _).trans ((List.suffix_cons vt _).trans
                      (List.suffix_cons t _)))))) (by simp; omega) trivial
            · constructor
              · intro h
                simp [step, nextToken, hlp, hr, hnl] at h
              · intro res p2 h
                simp [step, nextToken, hlp, hr, hnl] at h
                obtain ⟨rfl, rfl⟩ := h
                exact stepFacts_err _ _ (List.suffix_cons u rest2 |>.trans
                  ((List.suffix_cons vt2 _).trans ((List.suffix_cons u2 _).trans
                    ((List.suffix_cons a _).trans ((List.suffix_cons vt _).trans
                      (List.suffix_cons t _))))))
  case parsePkgMapListElem =>
    cases ptoks with
    | nil =>
      constructor
      · intro h
        simp [step, nextToken, eofToken, readPkgMap, readPkg] at h
      · intro res p2 h
        simp [step, nextToken, eofToken, readPkgMap, readPkg] at h
        obtain ⟨rfl, rfl⟩ := h
        exact stepFacts_err _ _ List.nil_suffix
    | cons t rest =>
      by_cases hrp : t.kind = TokenKind.tokenRightParen
      · cases rest with
        | nil =>
          constructor
          · intro h
            simp [step, nextToken, hrp, eofToken] at h
          · intro res p2 h
            simp [step, nextToken, hrp, eofToken] at h
            obtain ⟨rfl, rfl⟩ := h
            exact stepFacts_err _ _ List.nil_suffix
        | cons t2 rest2 =>
          by_cases hnl : t2.kind = TokenKind.tokenNewline
          · constructor
            · intro h
              simp [step, nextToken, hrp, hnl] at h
            · intro res p2 h
              simp [step, nextToken, hrp, hnl] at h
              obtain ⟨rfl, rfl⟩ := h
              exact stepFacts_cont
                ((List.suffix_cons t2 rest2).trans (List.suffix_cons t (t2 :: rest2)))
                (by simp; omega) (fun _ => trivial)
          · constructor
            · intro h
              simp [step, nextToken, hrp, hnl] at h
            · intro res p2 h
              simp [step, nextToken, hrp, hnl] at h
              obtain ⟨rfl, rfl⟩ := h
              exact stepFacts_err _ _
                ((List.suffix_cons t2 rest2).trans (List.suffix_cons t (t2 :: rest2)))
      · rcases hr : readPkgMap t rest with ⟨r1, toks1⟩
        have hsuf1 : toks1 <:+ t :: rest := by
          have h0 := readPkgMap_snd_suffix t rest
          rw [hr] at h0
          exact h0.trans (List.suffix_cons t rest)
        cases r1 with
        | panicked =>
          constructor
          · intro _
            rcases readPkgMap_panicked hr with ⟨h1, h2⟩ | ⟨u, hu, h1, h2⟩
            · exact ⟨t, List.mem_cons_self t rest, h1, h2⟩
            · exact ⟨u, List.mem_cons_of_mem t hu, h1, h2⟩
          · intro res p2 h
            simp [step, nextToken, hrp, hr] at h
        | failed e =>
          constructor
          · intro h
            simp [step, nextToken, hrp, hr] at h
          · intro res p2 h
            simp [step, nextToken, hrp, hr] at h
            obtain ⟨rfl, rfl⟩ := h
            exact stepFacts_err _ _ hsuf1
        | ok m =>
          obtain ⟨hstr, hlen, hpath, vt, a, u2, vt2, rest1, hrest, hv, ha, hstr2, hlen2,
            hv2, hver, hpath2, hver2, htoks1⟩ := readPkgMap_ok hr
          subst htoks1
          subst hrest
          cases toks1 with
          | nil =>
            constructor
            · intro h
              simp [step, nextToken, hrp, hr, eofToken] at h
            · intro res p2 h
              simp [step, nextToken, hrp, hr, eofToken] at h
              obtain ⟨rfl, rfl⟩ := h
              exact stepFacts_err _ _ List.nil_suffix
          | cons u rest2 =>
            by_cases hnl : u.kind = TokenKind.tokenNewline
            · constructor
              · intro h
                simp [step, nextToken, hrp, hr, hnl] at h
              · intro res p2 h
                simp [step, nextToken, hrp, hr, hnl] at h
                obtain ⟨rfl, rfl⟩ := h
                exact stepFacts_rep (List.suffix_cons u rest2 |>.trans
                  ((List.suffix_cons vt2 _).trans ((List.suffix_cons u2 _).trans
                    ((List.suffix_cons a _).trans ((List.suffix_cons vt _).trans
                      (List.suffix_cons t _)))))) (by simp; omega) trivial
            · constructor
              · intro h
                simp [step, nextToken, hrp, hr, hnl] at h
              · intro res p2 h
                simp [step, nextToken, hrp, hr, hnl] at h
                obtain ⟨rfl, rfl⟩ := h
                exact stepFacts_err _ _ (List.suffix_cons u rest2 |>.trans
                  ((List.suffix_cons vt2 _).trans ((List.suffix_cons u2 _).trans
                    ((List.suffix_cons a _).trans ((List.suffix_cons vt _).trans
                      (List.suffix_cons t _))))))

theorem step_panic {s : PState} {p : Pctx} (h : step s p = none) :
    ∃ u ∈ p.toks, u.kind = TokenKind.tokenString ∧ u.val.length < 2 :=
  (step_master s p).1 h

theorem step_facts {s : PState} {p : Pctx} {res : Option PState} {p2 : Pctx}
    (h : step s p = some (res, p2)) : StepFacts s p res p2 :=
  (step_master s p).2 res p2 h

/-! ## The driver loop: fuel irrelevance and termination -/

theorem run_congr : ∀ (f1 f2 : Nat) (s : PState) (p : Pctx),
    p.toks.length < f1 → p.toks.length < f2 →
    run f1 (some s) p = run f2 (some s) p := by
  intro f1
  induction f1 with
  | zero => intro f2 s p h1 _; omega
  | succ n ih =>
    intro f2 s p h1 h2
    cases f2 with
    | zero => omega
    | succ m =>
      rcases hst : step s p with _ | ⟨res, p2⟩
      · simp [run, hst]
      · cases res with
        | none => simp [run, hst]
        | some s2 =>
          have hf := step_facts hst
          have hlt := hf.prog.resolve_left (by simp)
          simp only [run, hst]
          exact ih m s2 p2 (by omega) (by omega)

theorem run_ne_outOfFuel : ∀ (fuel : Nat) (s : PState) (p : Pctx),
    p.toks.length < fuel → run fuel (some s) p ≠ Outcome.outOfFuel := by
  intro fuel
  induction fuel with
  | zero => intro s p h; omega
  | succ n ih =>
    intro s p h
    rcases hst : step s p with _ | ⟨res, p2⟩
    · simp [run, hst]
    · cases res with
      | none =>
        simp only [run, hst]
        unfold finishRun
        cases p2.err <;> simp
      | some s2 =>
        have hf := step_facts hst
        have hlt := hf.prog.resolve_left (by simp)
        simp only [run, hst]
        exact ih s2 p2 (by omega)

theorem Parse_eq_runFrom (ts : List Token) :
    Parse ts = runFrom PState.parseModule ⟨ts, emptyModule, none⟩ := rfl

theorem runFrom_cont {s s2 : PState} {p p2 : Pctx}
    (h : step s p = some (some s2, p2)) : runFrom s p = runFrom s2 p2 := by
  have hf := step_facts h
  have hlt := hf.prog.resolve_left (by simp)
  have h1 : runFrom s p = run p.toks.length (some s2) p2 := by
    simp only [runFrom, run, h]
  rw [h1, runFrom]
  apply run_congr
  · omega
  · omega

theorem runFrom_term {s : PState} {p p2 : Pctx}
    (h : step s p = some (none, p2)) : runFrom s p = finishRun p2 := by
  simp only [runFrom, run, h]

theorem runFrom_panic {s : PState} {p : Pctx}
    (h : step s p = none) : runFrom s p = Outcome.panicked := by
  simp only [runFrom, run, h]

/-! ## Global invariants of complete runs -/

theorem run_parsed_inv : ∀ (fuel : Nat) (s : PState) (p : Pctx) (m : Module),
    goodToks p.toks → p.err = none → pathsOk p.file → (nameNeeded s → p.file.Name ≠ "") →
    run fuel (some s) p = Outcome.parsed m → m.Name ≠ "" ∧ pathsOk m := by
  intro fuel
  induction fuel with
  | zero =>
    intro s p m _ _ _ _ h
    simp [run] at h
  | succ n ih =>
    intro s p m hg he hp hn h
    rcases hst : step s p with _ | ⟨res, p2⟩
    · simp [run, hst] at h
    · have hf := step_facts hst
      cases res with
      | none =>
        simp only [run, hst] at h
        have he2 : p2.err = none := by
          rcases hpe : p2.err with _ | e
          · rfl
          · rw [finishRun, hpe] at h
            simp at h
        obtain ⟨hsv, hfile⟩ := hf.cleanStop he rfl he2
        have hm : m = p2.file := by
          rw [finishRun, he2] at h
          simp at h
          exact h.symm
        rw [hm, hfile]
        exact ⟨hn (by rw [hsv]; exact nameNeeded_parseVerb), hp⟩
      | some s2 =>
        simp only [run, hst] at h
        exact ih s2 p2 m (goodToks_mono hf.suffix hg)
          (by rw [hf.errPres (by simp)]; exact he)
          (hf.pathsInv hg hp)
          (fun hn2 => hf.nameInv hg s2 rfl hn2 hn) h

theorem run_no_panic : ∀ (fuel : Nat) (s : PState) (p : Pctx),
    (∀ t ∈ p.toks, t.kind = TokenKind.tokenString → 2 ≤ t.val.length) →
    run fuel (some s) p ≠ Outcome.panicked := by
  intro fuel
  induction fuel with
  | zero =>
    intro s p _
    simp [run]
  | succ n ih =>
    intro s p hg
    rcases hst : step s p with _ | ⟨res, p2⟩
    · obtain ⟨u, hu, hk, hl⟩ := step_panic hst
      have := hg u hu hk
      omega
    · cases res with
      | none =>
        simp only [run, hst]
        unfold finishRun
        cases p2.err <;> simp
      | some s2 =>
        simp only [run, hst]
        exact ih s2 p2 (fun t ht hk => hg t ((step_facts hst).suffix.subset ht) hk)

theorem strTok_kind (s : String) : (strTok s).kind = TokenKind.tokenString := rfl

theorem strTok_val (s : String) : (strTok s).val = s := rfl

theorem verTok_kind (s : String) : (verTok s).kind = TokenKind.tokenVersion := rfl

theorem verTok_val (s : String) : (verTok s).val = s := rfl

theorem nlTok_kind : nlTok.kind = TokenKind.tokenNewline := rfl

theorem arrowTok_kind : arrowTok.kind = TokenKind.tokenMapFun := rfl

theorem lparenTok_kind : lparenTok.kind = TokenKind.tokenLeftParen := rfl

theorem rparenTok_kind : rparenTok.kind = TokenKind.tokenRightParen := rfl

theorem moduleTok_kind : moduleTok.kind = TokenKind.tokenModule := rfl

theorem requireTok_kind : requireTok.kind = TokenKind.tokenRequire := rfl

theorem excludeTok_kind : excludeTok.kind = TokenKind.tokenExclude := rfl

theorem replaceTok_kind : replaceTok.kind = TokenKind.tokenReplace := rfl

/-! ## Evaluation of single transitions on rendered input -/

theorem step_parseModule_eval (rest : List Token) (f : Module) (e : Option ParseErr) :
    step PState.parseModule ⟨moduleTok :: rest, f, e⟩ =
      some (some PState.parseModuleName, ⟨rest, f, e⟩) := by
  simp [step, skipNewline, moduleTok_kind]

theorem step_parseModuleName_eval {nm : String} (h : 2 ≤ nm.length) (rest : List Token)
    (f : Module) (e : Option ParseErr) :
    step PState.parseModuleName ⟨strTok nm :: nlTok :: rest, f, e⟩ =
      some (some PState.parseVerb, ⟨rest, { f with Name := stripDelims nm }, e⟩) := by
  simp [step, nextToken, strTok_kind, strTok_val, nlTok_kind, unquote_of_le h]

theorem step_parseVerb_require (rest : List Token) (f : Module) (e : Option ParseErr) :
    step PState.parseVerb ⟨requireTok :: rest, f, e⟩ =
      some (some (PState.parsePkgList Dest.requires), ⟨rest, f, e⟩) := by
  simp only [step, nextToken]
  rw [requireTok_kind]

theorem step_parseVerb_exclude (rest : List Token) (f : Module) (e : Option ParseErr) :
    step PState.parseVerb ⟨excludeTok :: rest, f, e⟩ =
      some (some (PState.parsePkgList Dest.excludes), ⟨rest, f, e⟩) := by
  simp only [step, nextToken]
  rw [excludeTok_kind]

theorem step_parseVerb_replace (rest : List Token) (f : Module) (e : Option ParseErr) :
    step PState.parseVerb ⟨replaceTok :: rest, f, e⟩ =
      some (some PState.parsePkgMapList, ⟨rest, f, e⟩) := by
  simp only [step, nextToken]
  rw [replaceTok_kind]

theorem step_parseVerb_eof (f : Module) (e : Option ParseErr) :
    step PState.parseVerb ⟨[], f, e⟩ = some (none, ⟨[], f, e⟩) := by
  simp only [step, nextToken]
  rfl

theorem step_pkgList_inline {l : PkgLine} (h : 2 ≤ l.path.length) (d : Dest)
    (rest : List Token) (f : Module) (e : Option ParseErr) :
    step (PState.parsePkgList d) ⟨renderPkgLine l ++ rest, f, e⟩ =
      some (some PState.parseVerb, ⟨rest, addPkg d f (pkgOf l), e⟩) := by
  have hr := @readPkg_eval (strTok l.path) (verTok l.ver) (nlTok :: rest)
    (strTok_kind l.path) (by rw [strTok_val]; exact h) (verTok_kind l.ver)
  simp [renderPkgLine, step, nextToken, strTok_kind, nlTok_kind, hr, strTok_val, verTok_val,
    pkgOf]

theorem step_pkgList_lparen (d : Dest) (rest : List Token) (f : Module) (e : Option ParseErr) :
    step (PState.parsePkgList d) ⟨lparenTok :: nlTok :: rest, f, e⟩ =
      some (some (PState.parsePkgListElem d), ⟨rest, f, e⟩) := by
  simp [step, nextToken, lparenTok_kind, nlTok_kind]

theorem step_elem_rparen (d : Dest) (rest : List Token) (f : Module) (e : Option ParseErr) :
    step (PState.parsePkgListElem d) ⟨rparenTok :: nlTok :: rest, f, e⟩ =
      some (some PState.parseVerb, ⟨rest, f, e⟩) := by
  simp [step, skipNewline, nextToken, rparenTok_kind, nlTok_kind]

theorem step_elem_entry {l : PkgLine} (h : 2 ≤ l.path.length) (d : Dest)
    (rest : List Token) (f : Module) (e : Option ParseErr) :
    step (PState.parsePkgListElem d) ⟨renderPkgLine l ++ rest, f, e⟩ =
      some (some (PState.parsePkgListElem d), ⟨rest, addPkg d f (pkgOf l), e⟩) := by
  have hr := @readPkg_eval (strTok l.path) (verTok l.ver) (nlTok :: rest)
    (strTok_kind l.path) (by rw [strTok_val]; exact h) (verTok_kind l.ver)
  simp [renderPkgLine, step, skipNewline, nextToken, strTok_kind, nlTok_kind, hr, strTok_val,
    verTok_val, pkgOf]

theorem step_mapList_inline {m : MapLine} (h1 : 2 ≤ m.fromPath.length)
    (h2 : 2 ≤ m.toPath.length) (rest : List Token) (f : Module) (e : Option ParseErr) :
    step PState.parsePkgMapList ⟨renderMapLine m ++ rest, f, e⟩ =
      some (some PState.parseVerb, ⟨rest, replacePkg f (mapOf m), e⟩) := by
  have hr := @readPkgMap_eval (strTok m.fromPath) (verTok m.fromVer) arrowTok
    (strTok m.toPath) (verTok m.toVer) (nlTok :: rest) (strTok_kind _)
    (by rw [strTok_val]; exact h1) (verTok_kind _) arrowTok_kind (strTok_kind _)
    (by rw [strTok_val]; exact h2) (verTok_kind _)
  simp [renderMapLine, step, nextToken, strTok_kind, nlTok_kind, hr, strTok_val, verTok_val,
    mapOf]

theorem step_mapList_lparen (rest : List Token) (f : Module) (e : Option ParseErr) :
    step PState.parsePkgMapList ⟨lparenTok :: nlTok :: rest, f, e⟩ =
      some (some PState.parsePkgMapListElem, ⟨rest, f, e⟩) := by
  simp [step, nextToken, lparenTok_kind, nlTok_kind]

theorem step_mapElem_rparen (rest : List Token) (f : Module) (e : Option ParseErr) :
    step PState.parsePkgMapListElem ⟨rparenTok :: nlTok :: rest, f, e⟩ =
      some (some PState.parseVerb, ⟨rest, f, e⟩) := by
  simp [step, nextToken, rparenTok_kind, nlTok_kind]

theorem step_mapElem_entry {m : MapLine} (h1 : 2 ≤ m.fromPath.length)
    (h2 : 2 ≤ m.toPath.length) (rest : List Token) (f : Module) (e : Option ParseErr) :
    step PState.parsePkgMapListElem ⟨renderMapLine m ++ rest, f, e⟩ =
      some (some PState.parsePkgMapListElem, ⟨rest, replacePkg f (mapOf m), e⟩) := by
  have hr := @readPkgMap_eval (strTok m.fromPath) (verTok m.fromVer) arrowTok
    (strTok m.toPath) (verTok m.toVer) (nlTok :: rest) (strTok_kind _)
    (by rw [strTok_val]; exact h1) (verTok_kind _) arrowTok_kind (strTok_kind _)
    (by rw [strTok_val]; exact h2) (verTok_kind _)
  simp [renderMapLine, step, nextToken, strTok_kind, nlTok_kind, hr, strTok_val, verTok_val,
    mapOf]

/-! ## Complete runs over rendered blocks and declarations -/

theorem runFrom_pkgBlock : ∀ (ls : List PkgLine) (d : Dest) (f : Module)
    (e : Option ParseErr) (rest : List Token), (∀ l ∈ ls, okPkgLine l) →
    runFrom (PState.parsePkgListElem d)
        ⟨(ls.map renderPkgLine).flatten ++ rparenTok :: nlTok :: rest, f, e⟩ =
      runFrom PState.parseVerb ⟨rest, ls.foldl (fun g l => addPkg d g (pkgOf l)) f, e⟩ := by
  intro ls
  induction ls with
  | nil =>
    intro d f e rest _
    simpa using runFrom_cont (step_elem_rparen d rest f e)
  | cons l ls ih =>
    intro d f e rest h
    have h0 : (((l :: ls).map renderPkgLine).flatten ++ rparenTok :: nlTok :: rest) =
        renderPkgLine l ++ ((ls.map renderPkgLine).flatten ++ rparenTok :: nlTok :: rest) := by
      simp
    rw [h0, runFrom_cont (step_elem_entry (h l (List.mem_cons_self _ _)) d _ f e),
      ih d _ e rest (fun x hx => h x (List.mem_cons_of_mem l hx))]
    rfl

theorem runFrom_mapBlock : ∀ (ms : List MapLine) (f : Module)
    (e : Option ParseErr) (rest : List Token), (∀ m ∈ ms, okMapLine m) →
    runFrom PState.parsePkgMapListElem
        ⟨(ms.map renderMapLine).flatten ++ rparenTok :: nlTok :: rest, f, e⟩ =
      runFrom PState.parseVerb ⟨rest, ms.foldl (fun g m => replacePkg g (mapOf m)) f, e⟩ := by
  intro ms
  induction ms with
  | nil =>
    intro f e rest _
    simpa using runFrom_cont (step_mapElem_rparen rest f e)
  | cons m ms ih =>
    intro f e rest h
    have h0 : (((m :: ms).map renderMapLine).flatten ++ rparenTok :: nlTok :: rest) =
        renderMapLine m ++ ((ms.map renderMapLine).flatten ++ rparenTok :: nlTok :: rest) := by
      simp
    rw [h0, runFrom_cont (step_mapElem_entry (h m (List.mem_cons_self _ _)).1
      (h m (List.mem_cons_self _ _)).2 _ f e),
      ih _ e rest (fun x hx => h x (List.mem_cons_of_mem m hx))]
    rfl

theorem runFrom_decls : ∀ (ds : List VerbDecl) (f : Module) (e : Option ParseErr),
    (∀ dcl ∈ ds, okDecl dcl) →
    runFrom PState.parseVerb ⟨renderDecls ds, f, e⟩ = finishRun ⟨[], applyDecls f ds, e⟩ := by
  intro ds
  induction ds with
  | nil =>
    intro f e _
    rw [show renderDecls [] = [] from rfl, runFrom_term (step_parseVerb_eof f e)]
    rfl
  | cons dcl ds ih =>
    intro f e h
    have hds : ∀ x ∈ ds, okDecl x := fun x hx => h x (List.mem_cons_of_mem dcl hx)
    have hd : okDecl dcl := h dcl (List.mem_cons_self _ _)
    have h0 : renderDecls (dcl :: ds) = renderDecl dcl ++ renderDecls ds := by
      simp [renderDecls]
    rw [h0]
    cases dcl with
    | requireInline l =>
      rw [show renderDecl (VerbDecl.requireInline l) ++ renderDecls ds =
        requireTok :: (renderPkgLine l ++ renderDecls ds) from by simp [renderDecl]]
      rw [runFrom_cont (step_parseVerb_require _ f e),
        runFrom_cont (step_pkgList_inline hd Dest.requires _ f e), ih _ e hds]
      rfl
    | excludeInline l =>
      rw [show renderDecl (VerbDecl.excludeInline l) ++ renderDecls ds =
        excludeTok :: (renderPkgLine l ++ renderDecls ds) from by simp [renderDecl]]
      rw [runFrom_cont (step_parseVerb_exclude _ f e),
        runFrom_cont (step_pkgList_inline hd Dest.excludes _ f e), ih _ e hds]
      rfl
    | replaceInline m =>
      rw [show renderDecl (VerbDecl.replaceInline m) ++ renderDecls ds =
        replaceTok :: (renderMapLine m ++ renderDecls ds) from by simp [renderDecl]]
      rw [runFrom_cont (step_parseVerb_replace _ f e),
        runFrom_cont (step_mapList_inline hd.1 hd.2 _ f e), ih _ e hds]
      rfl
    | requireBlock ls =>
      rw [show renderDecl (VerbDecl.requireBlock ls) ++ renderDecls ds =
        requireTok :: lparenTok :: nlTok ::
          ((ls.map renderPkgLine).flatten ++ rparenTok :: nlTok :: renderDecls ds) from by
        simp [renderDecl]]
      rw [runFrom_cont (step_parseVerb_require _ f e),
        runFrom_cont (step_pkgList_lparen Dest.requires _ f e),
        runFrom_pkgBlock ls Dest.requires f e _ hd, ih _ e hds]
      rfl
    | excludeBlock ls =>
      rw [show renderDecl (VerbDecl.excludeBlock ls) ++ renderDecls ds =
        excludeTok :: lparenTok :: nlTok ::
          ((ls.map renderPkgLine).flatten ++ rparenTok :: nlTok :: renderDecls ds) from by
        simp [renderDecl]]
      rw [runFrom_cont (step_parseVerb_exclude _ f e),
        runFrom_cont (step_pkgList_lparen Dest.excludes _ f e),
        runFrom_pkgBlock ls Dest.excludes f e _ hd, ih _ e hds]
      rfl
    | replaceBlock ms =>
      rw [show renderDecl (VerbDecl.replaceBlock ms) ++ renderDecls ds =
        replaceTok :: lparenTok :: nlTok ::
          ((ms.map renderMapLine).flatten ++ rparenTok :: nlTok :: renderDecls ds) from by
        simp [renderDecl]]
      rw [runFrom_cont (step_parseVerb_replace _ f e),
        runFrom_cont (step_mapList_lparen _ f e),
        runFrom_mapBlock ms f e _ hd, ih _ e hds]
      rfl

/-- Parsing a rendered well-formed description succeeds with exactly the
described document. -/
theorem Parse_render (fd : FileDesc) (hok : okFile fd) :
    Parse (render fd) = Outcome.parsed (expectedModule fd) := by
  rw [Parse_eq_runFrom,
    show (⟨render fd, emptyModule, none⟩ : Pctx) =
      ⟨moduleTok :: strTok fd.nameLit :: nlTok :: renderDecls fd.decls, emptyModule, none⟩
      from rfl,
    runFrom_cont (step_parseModule_eval _ emptyModule none),
    runFrom_cont (step_parseModuleName_eval hok.1 _ emptyModule none),
    runFrom_decls fd.decls _ none hok.2]
  rfl

theorem foldl_addPkg_requires : ∀ (ls : List PkgLine) (f : Module),
    ls.foldl (fun g l => addPkg Dest.requires g (pkgOf l)) f =
      { f with Requires := f.Requires ++ ls.map pkgOf } := by
  intro ls
  induction ls with
  | nil => intro f; simp
  | cons l ls ih =>
    intro f
    rw [List.foldl_cons, ih]
    simp [addPkg]

theorem foldl_addPkg_excludes : ∀ (ls : List PkgLine) (f : Module),
    ls.foldl (fun g l => addPkg Dest.excludes g (pkgOf l)) f =
      { f with Excludes := f.Excludes ++ ls.map pkgOf } := by
  intro ls
  induction ls with
  | nil => intro f; simp
  | cons l ls ih =>
    intro f
    rw [List.foldl_cons, ih]
    simp [addPkg]

theorem foldl_replacePkg : ∀ (ms : List MapLine) (f : Module),
    ms.foldl (fun g m => replacePkg g (mapOf m)) f =
      { f with Replaces := f.Replaces ++ ms.map mapOf } := by
  intro ms
  induction ms with
  | nil => intro f; simp
  | cons m ms ih =>
    intro f
    rw [List.foldl_cons, ih]
    simp [replacePkg]

/-- The document built by a run over declarations, spelled out per list: the
declared entries, flattened in declaration order. -/
theorem applyDecls_eq : ∀ (ds : List VerbDecl) (f : Module),
    applyDecls f ds = ⟨f.Name,
      f.Requires ++ ((ds.map reqLines).flatten).map pkgOf,
      f.Excludes ++ ((ds.map excLines).flatten).map pkgOf,
      f.Replaces ++ ((ds.map repLines).flatten).map mapOf⟩ := by
  intro ds
  induction ds with
  | nil => intro f; simp [applyDecls]
  | cons dcl ds ih =>
    intro f
    have h0 : applyDecls f (dcl :: ds) = applyDecls (applyDecl f dcl) ds := rfl
    rw [h0, ih]
    cases dcl with
    | requireInline l => simp [applyDecl, addPkg, reqLines, excLines, repLines]
    | requireBlock ls =>
      rw [show applyDecl f (VerbDecl.requireBlock ls) =
        ls.foldl (fun g l => addPkg Dest.requires g (pkgOf l)) f from rfl,
        foldl_addPkg_requires]
      simp [reqLines, excLines, repLines]
    | excludeInline l => simp [applyDecl, addPkg, reqLines, excLines, repLines]
    | excludeBlock ls =>
      rw [show applyDecl f (VerbDecl.excludeBlock ls) =
        ls.foldl (fun g l => addPkg Dest.excludes g (pkgOf l)) f from rfl,
        foldl_addPkg_excludes]
      simp [reqLines, excLines, repLines]
    | replaceInline m => simp [applyDecl, replacePkg, reqLines, excLines, repLines]
    | replaceBlock ms =>
      rw [show applyDecl f (VerbDecl.replaceBlock ms) =
        ms.foldl (fun g m => replacePkg g (mapOf m)) f from rfl,
        foldl_replacePkg]
      simp [reqLines, excLines, repLines]

/-- Outcomes of one transition agree when the transition itself agrees. -/
theorem runFrom_congr_step {s : PState} {p q : Pctx} (h : step s p = step s q) :
    runFrom s p = runFrom s q := by
  rcases hq : step s q with _ | ⟨res, p2⟩
  · rw [runFrom_panic (h.trans hq), runFrom_panic hq]
  · cases res with
    | none => rw [runFrom_term (h.trans hq), runFrom_term hq]
    | some s2 => rw [runFrom_cont (h.trans hq), runFrom_cont hq]

/-! ## The claims -/

/-- C1, counterexample: a `replace` block with a blank line between its two
entry lines does not parse; the machine fails with "expect package
declaration" at the bare newline, because `parsePkgMapListElem` pulls with
`nextToken` rather than `skipNewline`. -/
theorem c1_counterexample :
    Parse [moduleTok, strTok "\"m\"", nlTok, replaceTok, lparenTok, nlTok,
        strTok "\"a\"", verTok "v1", arrowTok, strTok "\"b\"", verTok "v2", nlTok,
        nlTok,
        strTok "\"c\"", verTok "v1", arrowTok, strTok "\"d\"", verTok "v2", nlTok,
        rparenTok, nlTok] =
      Outcome.errored (ParseErr.expectPkgDecl nlTok) := by decide

/-- C1, amended: inside a parenthesized block, blank lines between entries
are tolerated for `require` and `exclude` (the element state skips any run
of newline tokens before testing for `)` or the next entry, so prepended
blank lines never change the outcome), but not for `replace`: the mapping
element state pulls the next token directly, so a bare newline there is a
fatal "expect package declaration" error; with no blank lines a replace
block still parses (third conjunct). -/
theorem c1_amended :
    (∀ (d : Dest) (k : Nat) (ts : List Token) (f : Module) (e : Option ParseErr),
      runFrom (PState.parsePkgListElem d) ⟨List.replicate k nlTok ++ ts, f, e⟩ =
        runFrom (PState.parsePkgListElem d) ⟨ts, f, e⟩) ∧
    (∀ (t : Token) (ts : List Token) (f : Module) (e : Option ParseErr),
      t.kind = TokenKind.tokenNewline →
      step PState.parsePkgMapListElem ⟨t :: ts, f, e⟩ =
        some (none, ⟨ts, f, some (ParseErr.expectPkgDecl t)⟩)) ∧
    (Parse [moduleTok, strTok "\"m\"", nlTok, requireTok, lparenTok, nlTok,
        strTok "\"a\"", verTok "v1", nlTok,
        nlTok,
        strTok "\"c\"", verTok "v1", nlTok,
        rparenTok, nlTok] =
      Outcome.parsed ⟨"m", [⟨"a", "v1"⟩, ⟨"c", "v1"⟩], [], []⟩) ∧
    (Parse [moduleTok, strTok "\"m\"", nlTok, excludeTok, lparenTok, nlTok,
        strTok "\"a\"", verTok "v1", nlTok,
        nlTok,
        strTok "\"c\"", verTok "v1", nlTok,
        rparenTok, nlTok] =
      Outcome.parsed ⟨"m", [], [⟨"a", "v1"⟩, ⟨"c", "v1"⟩], []⟩) ∧
    (Parse [moduleTok, strTok "\"m\"", nlTok, replaceTok, lparenTok, nlTok,
        strTok "\"a\"", verTok "v1", arrowTok, strTok "\"b\"", verTok "v2", nlTok,
        strTok "\"c\"", verTok "v1", arrowTok, strTok "\"d\"", verTok "v2", nlTok,
        rparenTok, nlTok] =
      Outcome.parsed ⟨"m", [], [],
        [⟨⟨"a", "v1"⟩, ⟨"b", "v2"⟩⟩, ⟨⟨"c", "v1"⟩, ⟨"d", "v2"⟩⟩]⟩) := by
  refine ⟨?_, ?_, by decide, by decide, by decide⟩
  · intro d k ts f e
    apply runFrom_congr_step
    have h0 : skipNewline (List.replicate k nlTok ++ ts) = skipNewline ts :=
      skipNewline_append ts (fun t ht => by rw [List.eq_of_mem_replicate ht]; rfl)
    simp only [step, h0]
  · intro t ts f e hk
    have hne : t.kind ≠ TokenKind.tokenString := by rw [hk]; simp
    have hnr : t.kind ≠ TokenKind.tokenRightParen := by rw [hk]; simp
    have hr : readPkgMap t ts = (PRes.failed (ParseErr.expectPkgDecl t), ts) := by
      simp [readPkgMap, readPkg_not_string _ hne]
    simp [step, nextToken, hnr, hr]

/-- C1, amended, witness: blank-line insensitivity of the require-block
element state at a concrete context, and the replace-block blank-line error
at a concrete newline token. -/
theorem c1_amended_witness :
    runFrom (PState.parsePkgListElem Dest.requires)
        ⟨List.replicate 2 nlTok ++ [rparenTok, nlTok], emptyModule, none⟩ =
      runFrom (PState.parsePkgListElem Dest.requires)
        ⟨[rparenTok, nlTok], emptyModule, none⟩ ∧
    step PState.parsePkgMapListElem ⟨[nlTok], emptyModule, none⟩ =
      some (none, ⟨[], emptyModule, some (ParseErr.expectPkgDecl nlTok)⟩) :=
  ⟨c1_amended.1 Dest.requires 2 [rparenTok, nlTok] emptyModule none,
    c1_amended.2.1 nlTok [] emptyModule none rfl⟩

/-- C2, counterexample: the stream of `module ""` (an empty string literal,
raw value of length 2) parses successfully, and in the resulting Document the
name field is the empty string — so a successful Parse does not guarantee a
non-empty name. -/
theorem c2_counterexample :
    Parse [moduleTok, strTok "\"\"", nlTok] = Outcome.parsed ⟨"", [], [], []⟩ := by decide

/-- C2, amended: whenever Parse succeeds and every string-literal token in
the stream carries at least one character between its two quote delimiters
(raw length at least 3), the name of the returned Document is non-empty and every
Package in `Requires` and `Excludes` has a non-empty path. -/
theorem c2_amended (ts : List Token) (m : Module) (hg : goodToks ts)
    (h : Parse ts = Outcome.parsed m) :
    m.Name ≠ "" ∧ (∀ pk ∈ m.Requires, pk.Path ≠ "") ∧ (∀ pk ∈ m.Excludes, pk.Path ≠ "") := by
  have h0 := run_parsed_inv (ts.length + 1) PState.parseModule ⟨ts, emptyModule, none⟩ m hg
    rfl ⟨by simp [emptyModule], by simp [emptyModule]⟩ (fun hn => hn.elim) h
  exact ⟨h0.1, h0.2.1, h0.2.2⟩

/-- C2, amended, witness: at the concrete stream of `module "m"` followed by
`require "p" v1.0.0`, the hypotheses hold and the conclusion follows. -/
theorem c2_amended_witness :
    (⟨"m", [⟨"p", "v1.0.0"⟩], [], []⟩ : Module).Name ≠ "" ∧
    (∀ pk ∈ (⟨"m", [⟨"p", "v1.0.0"⟩], [], []⟩ : Module).Requires, pk.Path ≠ "") ∧
    (∀ pk ∈ (⟨"m", [⟨"p", "v1.0.0"⟩], [], []⟩ : Module).Excludes, pk.Path ≠ "") :=
  c2_amended [moduleTok, strTok "\"m\"", nlTok,
      requireTok, strTok "\"p\"", verTok "v1.0.0", nlTok]
    ⟨"m", [⟨"p", "v1.0.0"⟩], [], []⟩ (by simp only [goodToks]; decide) (by decide)

/-- C3: every syntactically valid manifest (rendered from a description
whose string literals keep their quote delimiters) parses successfully, and
the output lists hold exactly the declared packages and mappings in
declaration order — duplicates preserved — with each path equal to the
raw value of the string literal minus its first and last characters, and each
version equal verbatim to the text of the version literal. -/
theorem c3_round_trip (fd : FileDesc) (hok : okFile fd) :
    Parse (render fd) = Outcome.parsed
      ⟨stripDelims fd.nameLit,
        ((fd.decls.map reqLines).flatten).map pkgOf,
        ((fd.decls.map excLines).flatten).map pkgOf,
        ((fd.decls.map repLines).flatten).map mapOf⟩ := by
  rw [Parse_render fd hok, expectedModule, applyDecls_eq]
  simp

/-- C3, witness: the concrete scenario of the spec, with a duplicated require
line to exhibit duplicate preservation. -/
theorem c3_round_trip_witness :
    Parse (render ⟨"\"m\"", [VerbDecl.requireInline ⟨"\"p\"", "v1.0.0"⟩,
        VerbDecl.requireInline ⟨"\"p\"", "v1.0.0"⟩,
        VerbDecl.replaceInline ⟨"\"a\"", "v1", "\"b\"", "v2"⟩]⟩) =
      Outcome.parsed
        ⟨"m", [⟨"p", "v1.0.0"⟩, ⟨"p", "v1.0.0"⟩], [],
          [⟨⟨"a", "v1"⟩, ⟨"b", "v2"⟩⟩]⟩ := by
  have h0 := c3_round_trip ⟨"\"m\"", [VerbDecl.requireInline ⟨"\"p\"", "v1.0.0"⟩,
      VerbDecl.requireInline ⟨"\"p\"", "v1.0.0"⟩,
      VerbDecl.replaceInline ⟨"\"a\"", "v1", "\"b\"", "v2"⟩]⟩
    (by constructor
        · decide
        · intro dcl hd
          fin_cases hd <;> simp [okDecl, okPkgLine, okMapLine] <;> decide)
  rw [h0]
  decide

/-- C4: a mapping line is string literal, version literal, the `=>` token,
a second string literal and a second version literal, in that order: the
complete form succeeds with `from = {a, v1}` and `to = {b, v2}`; a missing
destination version is a fatal "expect package version"; and whenever the
token after the source package is not the arrow, the read fails with an
error whose message names `=>`. -/
theorem c4_mapping_line :
    (Parse [moduleTok, strTok "\"m\"", nlTok, replaceTok, strTok "\"a\"", verTok "v1",
        arrowTok, strTok "\"b\"", verTok "v2", nlTok] =
      Outcome.parsed ⟨"m", [], [], [⟨⟨"a", "v1"⟩, ⟨"b", "v2"⟩⟩]⟩) ∧
    (Parse [moduleTok, strTok "\"m\"", nlTok, replaceTok, strTok "\"a\"", verTok "v1",
        arrowTok, strTok "\"b\"", nlTok] =
      Outcome.errored (ParseErr.expectPkgVersion nlTok)) ∧
    (Parse [moduleTok, strTok "\"m\"", nlTok, replaceTok, strTok "\"a\"", verTok "v1",
        strTok "\"b\"", verTok "v2", nlTok] =
      Outcome.errored (ParseErr.expectMapFun (strTok "\"b\""))) ∧
    (∀ (pt vt t : Token) (rest : List Token), pt.kind = TokenKind.tokenString →
      2 ≤ pt.val.length → vt.kind = TokenKind.tokenVersion →
      t.kind ≠ TokenKind.tokenMapFun →
      readPkgMap pt (vt :: t :: rest) = (PRes.failed (ParseErr.expectMapFun t), rest) ∧
      ∃ pre suf, errMsg (ParseErr.expectMapFun t) = pre ++ "=>" ++ suf) := by
  refine ⟨by decide, by decide, by decide, ?_⟩
  intro pt vt t rest hpt hlen hvt ht
  refine ⟨readPkgMap_no_arrow rest hpt hlen hvt ht, "expect " ++ sq, sq ++ ", got " ++ tokStr t, ?_⟩
  simp [errMsg, String.append_assoc]

/-- C4, witness: the general arrow-absence conjunct at concrete tokens. -/
theorem c4_mapping_line_witness :
    readPkgMap (strTok "\"a\"") [verTok "v1", strTok "\"b\"", verTok "v2"] =
      (PRes.failed (ParseErr.expectMapFun (strTok "\"b\"")), [verTok "v2"]) ∧
    ∃ pre suf, errMsg (ParseErr.expectMapFun (strTok "\"b\"")) = pre ++ "=>" ++ suf :=
  c4_mapping_line.2.2.2 (strTok "\"a\"") (verTok "v1") (strTok "\"b\"") [verTok "v2"]
    rfl (by decide) rfl (by decide)

/-- C5: Parse is all-or-nothing.  A transition taken from an error-free
context that records an error returns the `nil` state, halting the machine
at once; and for every stream the observable outcome is exactly one of an
error (no Document), a Document (no error), or a panic — never a leaked
partial Document. -/
theorem c5_all_or_nothing :
    (∀ (s : PState) (p : Pctx) (res : Option PState) (p2 : Pctx), p.err = none →
      step s p = some (res, p2) → p2.err ≠ none → res = none) ∧
    (∀ ts : List Token, (∃ e, Parse ts = Outcome.errored e) ∨
      (∃ m, Parse ts = Outcome.parsed m) ∨ Parse ts = Outcome.panicked) := by
  constructor
  · intro s p res p2 he hst hne
    cases res with
    | none => rfl
    | some s2 => exact absurd ((step_facts hst).errPres (by simp) ▸ he) hne
  · intro ts
    rcases ho : Parse ts with _ | _ | e | m
    · exact absurd ho (run_ne_outOfFuel _ _ _ (Nat.lt_succ_self _))
    · exact Or.inr (Or.inr rfl)
    · exact Or.inl ⟨e, rfl⟩
    · exact Or.inr (Or.inl ⟨m, rfl⟩)

/-- C5, witness: an error-recording transition (an unexpected string token
in the verb loop) indeed returns the `nil` state. -/
theorem c5_all_or_nothing_witness : (none : Option PState) = none :=
  c5_all_or_nothing.1 PState.parseVerb ⟨[strTok "\"x\""], emptyModule, none⟩ none
    ⟨[], emptyModule, some (ParseErr.expectVerbDecl (strTok "\"x\""))⟩
    rfl (by decide) (by decide)

/-- C6: in the verb loop, a newline is skipped and the loop continues; an
end-of-input token (explicit or from exhaustion) terminates cleanly;
`module "m"` with no verb lines parses to the empty-bodied Document; and any
other token is a fatal error whose message contains "expect verb
declaration". -/
theorem c6_verb_loop :
    (∀ (t : Token) (ts : List Token) (f : Module) (e : Option ParseErr),
      t.kind = TokenKind.tokenNewline →
      step PState.parseVerb ⟨t :: ts, f, e⟩ = some (some PState.parseVerb, ⟨ts, f, e⟩)) ∧
    (∀ (t : Token) (ts : List Token) (f : Module) (e : Option ParseErr),
      t.kind = TokenKind.tokenEOF →
      step PState.parseVerb ⟨t :: ts, f, e⟩ = some (none, ⟨ts, f, e⟩)) ∧
    (∀ (f : Module) (e : Option ParseErr),
      step PState.parseVerb ⟨[], f, e⟩ = some (none, ⟨[], f, e⟩)) ∧
    (Parse [moduleTok, strTok "\"m\"", nlTok] = Outcome.parsed ⟨"m", [], [], []⟩) ∧
    (∀ (t : Token) (ts : List Token) (f : Module) (e : Option ParseErr),
      t.kind ≠ TokenKind.tokenRequire → t.kind ≠ TokenKind.tokenExclude →
      t.kind ≠ TokenKind.tokenReplace → t.kind ≠ TokenKind.tokenNewline →
      t.kind ≠ TokenKind.tokenEOF →
      step PState.parseVerb ⟨t :: ts, f, e⟩ =
        some (none, ⟨ts, f, some (ParseErr.expectVerbDecl t)⟩) ∧
      ∃ suf, errMsg (ParseErr.expectVerbDecl t) = "expect verb declaration" ++ suf) := by
  refine ⟨?_, ?_, ?_, by decide, ?_⟩
  · intro t ts f e hk
    simp only [step, nextToken]
    rw [hk]
  · intro t ts f e hk
    simp only [step, nextToken]
    rw [hk]
  · intro f e
    simp only [step, nextToken]
    rfl
  · intro t ts f e h1 h2 h3 h4 h5
    constructor
    · simp only [step, nextToken]
    · refine ⟨", got " ++ tokStr t, ?_⟩
      rw [errMsg, ← String.append_assoc]
      have h0 : "expect verb declaration, got " = "expect verb declaration" ++ ", got " := by
        decide
      rw [h0]

/-- C6, witness: the skip, clean-termination, and unknown-verb conjuncts at
concrete tokens. -/
theorem c6_verb_loop_witness :
    step PState.parseVerb ⟨[nlTok], emptyModule, none⟩ =
      some (some PState.parseVerb, ⟨[], emptyModule, none⟩) ∧
    step PState.parseVerb ⟨[eofToken], emptyModule, none⟩ =
      some (none, ⟨[], emptyModule, none⟩) ∧
    (step PState.parseVerb ⟨[strTok "\"x\""], emptyModule, none⟩ =
      some (none, ⟨[], emptyModule, some (ParseErr.expectVerbDecl (strTok "\"x\""))⟩) ∧
    ∃ suf, errMsg (ParseErr.expectVerbDecl (strTok "\"x\"")) =
      "expect verb declaration" ++ suf) :=
  ⟨c6_verb_loop.1 nlTok [] emptyModule none rfl,
    c6_verb_loop.2.1 eofToken [] emptyModule none rfl,
    c6_verb_loop.2.2.2.2 (strTok "\"x\"") [] emptyModule none
      (by decide) (by decide) (by decide) (by decide) (by decide)⟩

/-- C7: leading newline tokens before the module keyword are skipped (they
never change the first transition); the module keyword advances to the
module-name state; any other first non-newline token — end-of-input from an
all-blank stream included — is a fatal error whose message contains "expect
module declaration". -/
theorem c7_module_first :
    (∀ (k : Nat) (ts : List Token) (f : Module) (e : Option ParseErr),
      step PState.parseModule ⟨List.replicate k nlTok ++ ts, f, e⟩ =
        step PState.parseModule ⟨ts, f, e⟩) ∧
    (∀ (t : Token) (ts : List Token) (f : Module) (e : Option ParseErr),
      t.kind = TokenKind.tokenModule →
      step PState.parseModule ⟨t :: ts, f, e⟩ =
        some (some PState.parseModuleName, ⟨ts, f, e⟩)) ∧
    (∀ (k : Nat) (t : Token) (rest : List Token), t.kind ≠ TokenKind.tokenModule →
      t.kind ≠ TokenKind.tokenNewline →
      Parse (List.replicate k nlTok ++ t :: rest) =
        Outcome.errored (ParseErr.expectModuleDecl t) ∧
      ∃ suf, errMsg (ParseErr.expectModuleDecl t) = "expect module declaration" ++ suf) ∧
    (∀ k : Nat, Parse (List.replicate k nlTok) =
      Outcome.errored (ParseErr.expectModuleDecl eofToken)) := by
  have hrepl : ∀ (k : Nat) (ts : List Token),
      skipNewline (List.replicate k nlTok ++ ts) = skipNewline ts := fun k ts =>
    skipNewline_append ts (fun t ht => by rw [List.eq_of_mem_replicate ht]; rfl)
  refine ⟨?_, ?_, ?_, ?_⟩
  · intro k ts f e
    simp only [step, hrepl]
  · intro t ts f e hk
    have h0 : skipNewline (t :: ts) = (t, ts) := skipNewline_cons ts (by rw [hk]; simp)
    simp only [step, h0]
    rw [hk]
  · intro k t rest hm hn
    have h0 : skipNewline (List.replicate k nlTok ++ t :: rest) = (t, rest) := by
      rw [hrepl, skipNewline_cons rest hn]
    have hst : step PState.parseModule ⟨List.replicate k nlTok ++ t :: rest,
        emptyModule, none⟩ =
        some (none, ⟨rest, emptyModule, some (ParseErr.expectModuleDecl t)⟩) := by
      simp only [step, h0]
    constructor
    · rw [Parse_eq_runFrom, runFrom_term hst]
      rfl
    · refine ⟨", got " ++ tokStr t, ?_⟩
      rw [errMsg, ← String.append_assoc]
      have h1 : "expect module declaration, got " =
          "expect module declaration" ++ ", got " := by decide
      rw [h1]
  · intro k
    have h0 : skipNewline (List.replicate k nlTok) = (eofToken, []) := by
      have h1 := @skipNewline_append (List.replicate k nlTok) []
        (fun t ht => by rw [List.eq_of_mem_replicate ht]; rfl)
      rw [List.append_nil] at h1
      rw [h1]
      rfl
    have hst : step PState.parseModule ⟨List.replicate k nlTok, emptyModule, none⟩ =
        some (none, ⟨[], emptyModule, some (ParseErr.expectModuleDecl eofToken)⟩) := by
      simp [step, h0, eofToken]
    rw [Parse_eq_runFrom, runFrom_term hst]
    rfl

/-- C7, witness: three leading blank lines before `module` change nothing;
a version literal in first position is the "expect module declaration"
error; two blank lines and nothing else fail the same way at end of
input. -/
theorem c7_module_first_witness :
    step PState.parseModule ⟨List.replicate 3 nlTok ++ [moduleTok], emptyModule, none⟩ =
      step PState.parseModule ⟨[moduleTok], emptyModule, none⟩ ∧
    (Parse (List.replicate 2 nlTok ++ [verTok "v1"]) =
      Outcome.errored (ParseErr.expectModuleDecl (verTok "v1")) ∧
    ∃ suf, errMsg (ParseErr.expectModuleDecl (verTok "v1")) =
      "expect module declaration" ++ suf) ∧
    Parse (List.replicate 2 nlTok) = Outcome.errored (ParseErr.expectModuleDecl eofToken) :=
  ⟨c7_module_first.1 3 [moduleTok] emptyModule none,
    c7_module_first.2.2.1 2 (verTok "v1") [] (by decide) (by decide),
    c7_module_first.2.2.2 2⟩

/-- C8: after the module keyword the next token must be a string literal and
the one after it a newline, each mismatch a fatal error; and a package line
(inline or block-element) whose version literal is followed by anything but
a newline is rejected with the module left unchanged — the entry is not
added. -/
theorem c8_newline_required :
    (∀ (t : Token) (ts : List Token) (f : Module) (e : Option ParseErr),
      t.kind ≠ TokenKind.tokenString →
      step PState.parseModuleName ⟨t :: ts, f, e⟩ =
        some (none, ⟨ts, f, some (ParseErr.expectModuleName t)⟩)) ∧
    (∀ (nm : String) (t2 : Token) (ts : List Token) (f : Module) (e : Option ParseErr),
      2 ≤ nm.length → t2.kind ≠ TokenKind.tokenNewline →
      step PState.parseModuleName ⟨strTok nm :: t2 :: ts, f, e⟩ =
        some (none, ⟨ts, { f with Name := stripDelims nm },
          some (ParseErr.expectNewline t2)⟩)) ∧
    (∀ (l : PkgLine) (t2 : Token) (ts : List Token) (f : Module) (e : Option ParseErr)
      (d : Dest), 2 ≤ l.path.length → t2.kind ≠ TokenKind.tokenNewline →
      step (PState.parsePkgList d) ⟨strTok l.path :: verTok l.ver :: t2 :: ts, f, e⟩ =
        some (none, ⟨ts, f, some (ParseErr.expectNewline t2)⟩) ∧
      step (PState.parsePkgListElem d) ⟨strTok l.path :: verTok l.ver :: t2 :: ts, f, e⟩ =
        some (none, ⟨ts, f, some (ParseErr.expectNewline t2)⟩)) := by
  refine ⟨?_, ?_, ?_⟩
  · intro t ts f e ht
    simp [step, nextToken, ht]
  · intro nm t2 ts f e hlen hnl
    simp [step, nextToken, strTok_kind, strTok_val, unquote_of_le hlen, hnl]
  · intro l t2 ts f e d hlen hnl
    have hr := @readPkg_eval (strTok l.path) (verTok l.ver) (t2 :: ts)
      (strTok_kind l.path) (by rw [strTok_val]; exact hlen) (verTok_kind l.ver)
    constructor
    · simp [step, nextToken, strTok_kind, hr, hnl]
    · simp [step, skipNewline, nextToken, strTok_kind, hr, hnl]

/-- C8, witness: all three conjuncts at concrete tokens — a version literal
where the module name should be, trailing garbage after the module name, and
a package line with a stray token before its newline, which leaves the
module value untouched. -/
theorem c8_newline_required_witness :
    step PState.parseModuleName ⟨[verTok "v1"], emptyModule, none⟩ =
      some (none, ⟨[], emptyModule, some (ParseErr.expectModuleName (verTok "v1"))⟩) ∧
    step PState.parseModuleName ⟨[strTok "\"m\"", verTok "v1"], emptyModule, none⟩ =
      some (none, ⟨[], { emptyModule with Name := stripDelims "\"m\"" },
        some (ParseErr.expectNewline (verTok "v1"))⟩) ∧
    (step (PState.parsePkgList Dest.requires)
        ⟨[strTok "\"p\"", verTok "v1", verTok "v2"], emptyModule, none⟩ =
      some (none, ⟨[], emptyModule, some (ParseErr.expectNewline (verTok "v2"))⟩) ∧
    step (PState.parsePkgListElem Dest.requires)
        ⟨[strTok "\"p\"", verTok "v1", verTok "v2"], emptyModule, none⟩ =
      some (none, ⟨[], emptyModule, some (ParseErr.expectNewline (verTok "v2"))⟩)) :=
  ⟨c8_newline_required.1 (verTok "v1") [] emptyModule none (by decide),
    c8_newline_required.2.1 "\"m\"" (verTok "v1") [] emptyModule none (by decide) (by decide),
    c8_newline_required.2.2 ⟨"\"p\"", "v1"⟩ (verTok "v2") [] emptyModule none Dest.requires
      (by decide) (by decide)⟩

/-- C9: the machine terminates on every finite stream: each continuing
transition strictly consumes input, the newline skipper stops at the first
non-newline token (end-of-input included), and the driver never exhausts the
step budget `length + 1`. -/
theorem c9_termination :
    (∀ (s : PState) (p : Pctx) (s2 : PState) (p2 : Pctx),
      step s p = some (some s2, p2) → p2.toks.length < p.toks.length) ∧
    (∀ ts : List Token, (skipNewline ts).1.kind ≠ TokenKind.tokenNewline) ∧
    (∀ ts : List Token, Parse ts ≠ Outcome.outOfFuel) := by
  refine ⟨?_, skipNewline_fst_kind, ?_⟩
  · intro s p s2 p2 h
    exact (step_facts h).prog.resolve_left (by simp)
  · intro ts
    exact run_ne_outOfFuel _ _ _ (Nat.lt_succ_self _)

/-- C9, witness: a concrete continuing transition consumes a token. -/
theorem c9_termination_witness :
    (⟨[], emptyModule, (none : Option ParseErr)⟩ : Pctx).toks.length <
      (⟨[nlTok], emptyModule, (none : Option ParseErr)⟩ : Pctx).toks.length :=
  c9_termination.1 PState.parseVerb ⟨[nlTok], emptyModule, none⟩ PState.parseVerb
    ⟨[], emptyModule, none⟩ (by decide)

/-- C10: `unquote` computes `s[1:len(s)-1]` and is defined exactly when the
argument keeps both delimiter characters (length at least 2); the parser
applies it to string tokens unchecked, so a string token of length 1 drives
the whole parse into the panic outcome; and streams whose string tokens all
have length at least 2 never panic. -/
theorem c10_unquote_safety :
    (∀ s : String, (unquote s).isSome ↔ 2 ≤ s.length) ∧
    (Parse [moduleTok, ⟨TokenKind.tokenString, "x"⟩, nlTok] = Outcome.panicked) ∧
    (∀ ts : List Token, (∀ t ∈ ts, t.kind = TokenKind.tokenString → 2 ≤ t.val.length) →
      Parse ts ≠ Outcome.panicked) := by
  refine ⟨unquote_isSome, by decide, ?_⟩
  intro ts h
  exact run_no_panic _ _ _ h

/-- C10, witness: the well-formedness hypothesis holds of a concrete stream,
which therefore does not panic. -/
theorem c10_unquote_safety_witness :
    Parse [moduleTok, strTok "\"m\"", nlTok] ≠ Outcome.panicked :=
  c10_unquote_safety.2.2 [moduleTok, strTok "\"m\"", nlTok] (by decide)

end CoinModule
